import Mathlib

/-!
Verification of the combat-log parser of this repository (src/parser/cell.rs and
src/parser/mod.rs) against its specification.

The Rust code is a nom-based recursive-descent parser over string slices.  We
embed it shallowly:

* string slices become `List Char` (`Input`); the byte slices `&input[0..1]` and
  `&input[0..2]` in `parse_log_cell` / `parse_string` are modeled at character
  granularity (all inputs relevant to the claims are ASCII, where the two
  coincide; on empty input the slice is out of range and the process aborts,
  which we model explicitly).
* a nom parser `Fn(&str) -> IResult<&str, T>` becomes `Input → PR T` where `PR`
  distinguishes success (with the remaining input), a recoverable nom error
  (`Err::Error`), and a Rust panic / process abort (`panic!`, out-of-range
  slicing, `Option::unwrap` on `None`).  The constructor `more` is a fuel
  artifact of the embedding of the recursive grammar and of the
  `separated_list` loops; the entry points supply sufficient fuel, and the
  development proves it is never returned there.
* Rust `i64` values are modeled as `Int` together with the explicit range check
  that `str::parse::<i64>` performs (out-of-range digit runs are a parse
  error).  Rust `f64` values produced by `parse_float` are modeled as exact
  decimal rationals; `<f64 as FromStr>::parse` never fails on the recognized
  shape `[-]digits.digits`, and no claim depends on floating-point rounding.
-/

/-- Rust string slices, at character granularity. -/
abbrev Input := List Char

/-- The ways the Rust process can abort while parsing (`panic!` and friends). -/
inductive RPanic where
  /-- An out-of-range byte slice such as `&input[0..1]` on empty input. -/
  | sliceOutOfRange
  /-- `Option::unwrap` on `None` (the `split_once` in `parse_log_csv`). -/
  | unwrapNone
  /-- An explicit arity `panic!` in an event decoder, reporting the event name
  and the expected and actual cell counts. -/
  | arity (event : String) (expected actual : Nat)
  /-- The `panic!` in `parse_line` when the timestamp/body framing fails. -/
  | badLine
deriving Repr, DecidableEq

/-- Result of running an embedded parser: success with the remaining input, a
recoverable nom error (`Err::Error`), a Rust panic, or fuel exhaustion (`more`,
an artifact of the embedding that the chosen entry-point fuel never produces). -/
inductive PR (α : Type) where
  | ok (rem : Input) (val : α)
  | err
  | panic (p : RPanic)
  | more
deriving Repr

/-- One decoded cell of a log line (Rust `enum LogCell<'a>`).  `Str` keeps the
matched span as a character list; `Float` keeps the exact decimal value. -/
inductive LogCell where
  | Integer (v : Int)
  | Float (v : ℚ)
  | MultiPowerCell (v : Int × Int)
  | Str (v : Input)
  | Array (v : List LogCell)
deriving Repr

/-- The boolean coercion `impl From<LogCell> for bool` used for flag fields. -/
def cellToBool : LogCell → Bool
  | .Integer v => v != 0
  | .Float v => v != 0
  | .MultiPowerCell v => v.1 != 0
  | .Str v => v != []
  | .Array v => v.length != 0

/-- nom `tag`: consume the literal `t`, or fail. -/
def ptag (t : Input) (i : Input) : PR Input :=
  if i.take t.length = t then .ok (i.drop t.length) t else .err

/-- nom `take_while1 pred`: consume the maximal nonempty run of characters
satisfying `pred`, or fail when the first character does not satisfy it. -/
def takeWhile1 (pred : Char → Bool) (i : Input) : PR Input :=
  if i.takeWhile pred = [] then .err else .ok (i.dropWhile pred) (i.takeWhile pred)

/-- `fn is_valid_emote` from cell.rs. -/
def is_valid_emote (c : Char) : Bool := 0x20 ≤ c.toNat

/-- `fn is_valid_wrapped` from cell.rs. -/
def is_valid_wrapped (c : Char) : Bool :=
  0x20 ≤ c.toNat && c.toNat != 0x22 && c.toNat != 0x5C

/-- `fn is_valid_unwrapped` from cell.rs. -/
def is_valid_unwrapped (c : Char) : Bool :=
  0x20 ≤ c.toNat && c.toNat != 0x22 && c.toNat != 0x5C && c.toNat != 0x5D &&
    c.toNat != 0x2C && c.toNat != 0x29

/-- Numeric value of an ASCII digit run (most significant first). -/
def digitsVal (ds : Input) : Nat :=
  ds.foldl (fun a c => a * 10 + (c.toNat - 48)) 0

/-- `str::parse::<i64>` applied to a digit run known to contain only ASCII
digits: succeeds exactly when the value fits in `i64` (here with no sign). -/
def parseU63 (ds : Input) : Option Int :=
  if digitsVal ds ≤ 2 ^ 63 - 1 then some (digitsVal ds) else none

/-- The part of `fn parse_integer` after the optional sign: `digit1` and the
`str::parse::<i64>` range check (overflow is a parse error). -/
def parse_integer_digits (neg : Bool) (j : Input) : PR LogCell :=
  if j.takeWhile Char.isDigit = [] then .err
  else
    let v : Int := cond neg (-(digitsVal (j.takeWhile Char.isDigit) : Int))
      (digitsVal (j.takeWhile Char.isDigit) : Int)
    if v < -(2 ^ 63) ∨ (2 ^ 63 - 1 : Int) < v then .err
    else .ok (j.dropWhile Char.isDigit) (.Integer v)

/-- `fn parse_integer` from cell.rs: `recognize(tuple((opt(char('-')), digit1)))`
mapped through `str::parse::<i64>`; `opt(char('-'))` is the match on the
leading character. -/
def parse_integer (i : Input) : PR LogCell :=
  match i with
  | '-' :: j => parse_integer_digits true j
  | _ => parse_integer_digits false i

/-- The part of `fn parse_float` after the optional sign:
`digit1 '.' digit1`. -/
def parse_float_digits (neg : Bool) (j : Input) : PR LogCell :=
  if j.takeWhile Char.isDigit = [] then .err
  else
    match j.dropWhile Char.isDigit with
    | '.' :: j2 =>
      if j2.takeWhile Char.isDigit = [] then .err
      else
        let q : ℚ := (digitsVal (j.takeWhile Char.isDigit) : ℚ) +
          (digitsVal (j2.takeWhile Char.isDigit) : ℚ) /
            ((10 : ℚ) ^ (j2.takeWhile Char.isDigit).length)
        .ok (j2.dropWhile Char.isDigit) (.Float (cond neg (-q) q))
    | _ => .err

/-- `fn parse_float` from cell.rs: `recognize` of `[-]digits.digits` parsed as
`f64`; the value is modeled as the exact decimal rational (the `f64` rounding
performed by Rust is abstracted away; no claim depends on it).
`opt(char('-'))` is the match on the leading character. -/
def parse_float (i : Input) : PR LogCell :=
  match i with
  | '-' :: j => parse_float_digits true j
  | _ => parse_float_digits false i

/-- `fn parse_multi_power` from cell.rs: `digits | digits`, each side parsed
with `str::parse` into `i64` (overflow is a parse error). -/
def parse_multi_power (i : Input) : PR LogCell :=
  let ds1 := i.takeWhile Char.isDigit
  if ds1 = [] then .err
  else
    match parseU63 ds1 with
    | none => .err
    | some a =>
      match i.dropWhile Char.isDigit with
      | '|' :: j2 =>
        let ds2 := j2.takeWhile Char.isDigit
        if ds2 = [] then .err
        else
          match parseU63 ds2 with
          | none => .err
          | some b => .ok (j2.dropWhile Char.isDigit) (.MultiPowerCell (a, b))
      | _ => .err

/-- `fn parse_number` from cell.rs: `alt((parse_multi_power, parse_float,
parse_integer))` — alternatives tried in that order, a recoverable error moves
on to the next one. -/
def parse_number (i : Input) : PR LogCell :=
  match parse_multi_power i with
  | .err =>
    match parse_float i with
    | .err => parse_integer i
    | r => r
  | r => r

/-- `fn parse_string` from cell.rs.  The branch is chosen by `&input[0..1]`:
the icon-path escape `|T…!`, a quoted run, or an unquoted run.  On empty input
the slice `&input[0..1]` is out of range and the process aborts. -/
def parse_string (i : Input) : PR LogCell :=
  match i with
  | [] => .panic .sliceOutOfRange
  | '|' :: _ =>
    match ptag ['|', 'T'] i with
    | .ok j _ =>
      match takeWhile1 is_valid_emote j with
      | .ok j2 v =>
        match ptag ['!'] j2 with
        | .ok j3 _ => .ok j3 (.Str v)
        | _ => .err
      | _ => .err
    | _ => .err
  | '"' :: j =>
    match takeWhile1 is_valid_wrapped j with
    | .ok j2 v =>
      match j2 with
      | '"' :: j3 => .ok j3 (.Str v)
      | _ => .err
    | _ => .err
  | _ =>
    match takeWhile1 is_valid_unwrapped i with
    | .ok j v => .ok j (.Str v)
    | _ => .err

/-- The hex-literal arm of `parse_log_cell`: `tuple((tag("0x"), alphanumeric1))`
mapped to `LogCell::Str(v)` where `v` is only the `alphanumeric1` part — the
`0x` prefix is consumed but not part of the produced string. -/
def parse_hex (i : Input) : PR LogCell :=
  match ptag ['0', 'x'] i with
  | .ok j _ =>
    match takeWhile1 Char.isAlphanum j with
    | .ok j2 v => .ok j2 (.Str v)
    | _ => .err
  | _ => .err

/-- First characters that route a one-character input to `parse_integer`
(note `9` is absent in the source and falls through to `parse_string`). -/
def singleNumStart (c : Char) : Bool :=
  c = '0' || c = '1' || c = '2' || c = '3' || c = '4' || c = '5' || c = '6' ||
    c = '7' || c = '8' || c = '-'

/-- First characters (other than `0`) that route a longer input to
`parse_number` (again `9` is absent in the source). -/
def numStart (c : Char) : Bool :=
  c = '1' || c = '2' || c = '3' || c = '4' || c = '5' || c = '6' || c = '7' ||
    c = '8' || c = '-'

/-- The loop of nom `separated_list0`/`separated_list1` with separator
`tag(",")` and element parser `p`, specialized from nom 7: try the separator;
on failure stop; on success run `p`, and if `p` fails recoverably stop with the
input positioned before the separator.  `fuel` bounds the number of
iterations; each iteration consumes at least the separator, so any fuel larger
than the input length is sufficient. -/
def sepLoop (p : Input → PR LogCell) : Nat → Input → List LogCell → PR (List LogCell)
  | 0, _, _ => .more
  | h + 1, j, acc =>
    match j with
    | ',' :: j1 =>
      match p j1 with
      | .err => .ok j acc
      | .panic q => .panic q
      | .more => .more
      | .ok j2 c => sepLoop p h j2 (acc ++ [c])
    | _ => .ok j acc

/-- `fn parse_array` from cell.rs: `delimited(tag(open),
separated_list0(tag(","), parse_log_cell), tag(close))`.  The recursive calls
into the cell grammar are the parameter `p` (instantiated with the cell parser
at the enclosing fuel); the `separated_list0` entry is inlined before
`sepLoop`. -/
def parse_array (p : Input → PR LogCell) (f : Nat) (i : Input) (op cl : Char) :
    PR LogCell :=
  match i with
  | [] => .err
  | c :: tail =>
    if c = op then
      let lst : PR (List LogCell) :=
        match p tail with
        | .err => .ok tail []
        | .panic q => .panic q
        | .more => .more
        | .ok j1 c1 => sepLoop p f j1 [c1]
      match lst with
      | .ok j cs =>
        match j with
        | d :: j2 => if d = cl then .ok j2 (.Array cs) else .err
        | [] => .err
      | .err => .err
      | .panic q => .panic q
      | .more => .more
    else .err

/-- `fn parse_log_cell` from cell.rs, with explicit fuel for the recursion
through arrays.  A one-character input is dispatched first (`input.len() == 1`);
otherwise the first character (and for `0` also the second) selects the arm.
On empty input `&input[0..1]` is out of range and the process aborts. -/
def parseCellF : Nat → Input → PR LogCell
  | 0, _ => .more
  | f + 1, i =>
    match i with
    | [] => .panic .sliceOutOfRange
    | [c] =>
      if c = '[' then parse_array (parseCellF f) f i '[' ']'
      else if c = '(' then parse_array (parseCellF f) f i '(' ')'
      else if singleNumStart c then parse_integer i
      else parse_string i
    | c0 :: c1 :: _ =>
      if c0 = '[' then parse_array (parseCellF f) f i '[' ']'
      else if c0 = '(' then parse_array (parseCellF f) f i '(' ')'
      else if c0 = '0' then
        if c1 = 'x' then parse_hex i else parse_number i
      else if numStart c0 then parse_number i
      else parse_string i

/-- Entry point for the cell grammar: `parse_log_cell` with sufficient fuel. -/
def parse_log_cell (i : Input) : PR LogCell := parseCellF (i.length + 1) i

example : parse_log_cell "5|3".data = .ok [] (.MultiPowerCell (5, 3)) := rfl
example : parse_log_cell "0xAB12".data = .ok [] (.Str "AB12".data) := rfl
example : parse_log_cell "nil".data = .ok [] (.Str "nil".data) := rfl
example : parse_log_cell "[1,2,3]".data = .ok []
    (.Array [.Integer 1, .Integer 2, .Integer 3]) := rfl
example : parse_log_cell "-5.25".data = .ok [] (.Float (-(21/4 : ℚ))) := by
  have h : parse_log_cell "-5.25".data = .ok [] (.Float (-((5 : ℚ) + 25 / 10 ^ 2))) := rfl
  rw [h]; norm_num
example : parse_log_cell [] = .panic .sliceOutOfRange := rfl
example : parse_log_cell "\"a,b\"".data = .ok [] (.Str "a,b".data) := rfl

/-- Sequencing of embedded parsers on success (nom `tuple` and friends);
errors, panics and fuel exhaustion pass through. -/
def PR.bind {α β : Type} (r : PR α) (f : Input → α → PR β) : PR β :=
  match r with
  | .ok j a => f j a
  | .err => .err
  | .panic q => .panic q
  | .more => .more

/-- nom `separated_list1(tag(","), p)`: the first element is mandatory (its
recoverable failure fails the list), then the `sepLoop` loop. -/
def sepList1 (p : Input → PR LogCell) (f : Nat) (i : Input) : PR (List LogCell) :=
  match p i with
  | .err => .err
  | .panic q => .panic q
  | .more => .more
  | .ok j c => sepLoop p f j [c]

/-- Rust `struct LogEmote<'a>`: five raw delimited substrings. -/
structure LogEmote where
  sourceGUID : Input
  sourcename : Input
  sourceflags : Input
  sourceraidflags : Input
  text : Input
deriving Repr, DecidableEq

/-- Rust `struct LogSpellCastSuccess<'a>`: 28 positional cells. -/
structure LogSpellCastSuccess where
  sourceGUID : LogCell
  sourceName : LogCell
  sourceFlags : LogCell
  sourceRaidFlags : LogCell
  destGUID : LogCell
  destName : LogCell
  destFlags : LogCell
  destRaidFlags : LogCell
  spellId : LogCell
  spellName : LogCell
  spellSchool : LogCell
  unitGUID : LogCell
  ownerGUID : LogCell
  currHp : LogCell
  maxHp : LogCell
  attackPower : LogCell
  spellPower : LogCell
  armor : LogCell
  totalDamageAbsorbs : LogCell
  resourceType : LogCell
  currResource : LogCell
  maxResource : LogCell
  resourceCost : LogCell
  y : LogCell
  x : LogCell
  mapId : LogCell
  facing : LogCell
  ilvl : LogCell
deriving Repr

/-- Rust `struct LogSpellDamage<'a>`: 34 positional cells followed by four
boolean-coerced flags. -/
structure LogSpellDamage where
  sourceGUID : LogCell
  sourceName : LogCell
  sourceFlags : LogCell
  sourceRaidFlags : LogCell
  destGUID : LogCell
  destName : LogCell
  destFlags : LogCell
  destRaidFlags : LogCell
  spellId : LogCell
  spellName : LogCell
  spellSchool : LogCell
  unitGUID : LogCell
  ownerGUID : LogCell
  currHp : LogCell
  maxHp : LogCell
  attackPower : LogCell
  spellPower : LogCell
  armor : LogCell
  totalDamageAbsorbs : LogCell
  resourceType : LogCell
  currResource : LogCell
  maxResource : LogCell
  resourceCost : LogCell
  y : LogCell
  x : LogCell
  mapId : LogCell
  facing : LogCell
  ilvl : LogCell
  amount : LogCell
  overkill : LogCell
  school : LogCell
  resisted : LogCell
  blocked : LogCell
  absorbed : LogCell
  critical : Bool
  glancing : Bool
  crushing : Bool
  isOffHand : Bool
deriving Repr

/-- Rust `struct LogSpellHeal<'a>`: 31 positional cells followed by one
boolean-coerced flag; the decoder consumes 32 of the 33 cells (the last cell
of a heal line is dropped, per the source comment "Last field is always nil"). -/
structure LogSpellHeal where
  sourceGUID : LogCell
  sourceName : LogCell
  sourceFlags : LogCell
  sourceRaidFlags : LogCell
  destGUID : LogCell
  destName : LogCell
  destFlags : LogCell
  destRaidFlags : LogCell
  spellId : LogCell
  spellName : LogCell
  spellSchool : LogCell
  unitGUID : LogCell
  ownerGUID : LogCell
  currHp : LogCell
  maxHp : LogCell
  attackPower : LogCell
  spellPower : LogCell
  armor : LogCell
  totalDamageAbsorbs : LogCell
  resourceType : LogCell
  currResource : LogCell
  maxResource : LogCell
  resourceCost : LogCell
  y : LogCell
  x : LogCell
  mapId : LogCell
  facing : LogCell
  ilvl : LogCell
  amount : LogCell
  overhealing : LogCell
  absorbed : LogCell
  critical : Bool
deriving Repr

/-- Rust `enum LogRow<'a>`. -/
inductive LogRow where
  | Emote (e : LogEmote)
  | SpellCastSuccess (e : LogSpellCastSuccess)
  | SpellDamage (e : LogSpellDamage)
  | SpellHeal (e : LogSpellHeal)
  | NotSupported
deriving Repr

/-- Rust `struct LogEventDateTime<'a>`: six raw digit spans. -/
structure LogEventDateTime where
  month : Input
  day : Input
  hour : Input
  minute : Input
  second : Input
  ms : Input
deriving Repr, DecidableEq

/-- nom `not_line_ending` (complete): consume up to but excluding the first
`\r\n` or `\n` (possibly nothing); a `\r` not followed by `\n` is an error. -/
def not_line_ending (i : Input) : PR Input :=
  let keep : Char → Bool := fun c => c != '\r' && c != '\n'
  match i.dropWhile keep with
  | '\r' :: rest =>
    if rest.take 1 = ['\n'] then .ok (i.dropWhile keep) (i.takeWhile keep) else .err
  | r => .ok r (i.takeWhile keep)

/-- `fn parse_emote_fields` from cell.rs: four comma-terminated raw fields
followed by `recognize(not_line_ending)`.  Note the first field captured is
whatever precedes the first comma — the decoder does not consume an `EMOTE`
tag first. -/
def parse_emote_fields (i : Input) :
    PR (Input × Input × Input × Input × Input) :=
  (takeWhile1 (fun c => c != ',') i).bind fun j1 f1 =>
  (ptag [','] j1).bind fun j2 _ =>
  (takeWhile1 (fun c => c != ',') j2).bind fun j3 f2 =>
  (ptag [','] j3).bind fun j4 _ =>
  (takeWhile1 (fun c => c != ',') j4).bind fun j5 f3 =>
  (ptag [','] j5).bind fun j6 _ =>
  (takeWhile1 (fun c => c != ',') j6).bind fun j7 f4 =>
  (ptag [','] j7).bind fun j8 _ =>
  (not_line_ending j8).bind fun j9 f5 =>
  .ok j9 (f1, f2, f3, f4, f5)

/-- `fn parse_emote_line` from cell.rs: positional mapping of the five raw
fields. -/
def parse_emote_line (i : Input) : PR LogEmote :=
  (parse_emote_fields i).bind fun rem t =>
  .ok rem ⟨t.1, t.2.1, t.2.2.1, t.2.2.2.1, t.2.2.2.2⟩

/-- Shared prefix of the three spell-line decoders: `tuple((tag(event),
tag(","), separated_list1(tag(","), parse_log_cell)))` followed by the
(vacuous) re-check that the consumed tag equals the event name.  Returns the
decoded cell list; the cell parser runs with sufficient fuel for its input. -/
def spell_cols (event : String) (i : Input) : PR (List LogCell) :=
  (ptag event.data i).bind fun j ev =>
  (ptag [','] j).bind fun j2 _ =>
  (sepList1 (parseCellF (j2.length + 1)) (j2.length + 1) j2).bind fun rem cols =>
  if ev ≠ event.data then .err else .ok rem cols

/-- `fn parse_spell_cast_success_line` from cell.rs: 28 cells mapped
positionally; any other count hits the `panic!`. -/
def parse_spell_cast_success_line (i : Input) : PR LogSpellCastSuccess :=
  (spell_cols "SPELL_CAST_SUCCESS" i).bind fun rem cols =>
  match cols with
  | [a1, a2, a3, a4, a5, a6, a7, a8, a9, a10, a11, a12, a13, a14, a15, a16,
     a17, a18, a19, a20, a21, a22, a23, a24, a25, a26, a27, a28] =>
    .ok rem ⟨a1, a2, a3, a4, a5, a6, a7, a8, a9, a10, a11, a12, a13, a14, a15,
      a16, a17, a18, a19, a20, a21, a22, a23, a24, a25, a26, a27, a28⟩
  | other => .panic (.arity "SPELL_CAST_SUCCESS" 28 other.length)

/-- `fn parse_spell_damage_line` from cell.rs: 38 cells, the last four
boolean-coerced; any other count hits the `panic!` reporting expected 38 and
the actual count. -/
def parse_spell_damage_line (i : Input) : PR LogSpellDamage :=
  (spell_cols "SPELL_DAMAGE" i).bind fun rem cols =>
  match cols with
  | a1 :: a2 :: a3 :: a4 :: a5 :: a6 :: a7 :: a8 :: a9 :: a10 :: a11 :: a12 ::
    a13 :: a14 :: a15 :: a16 :: a17 :: a18 :: a19 :: a20 :: a21 :: a22 ::
    a23 :: a24 :: a25 :: a26 :: a27 :: a28 :: a29 :: a30 :: a31 :: a32 ::
    a33 :: a34 :: a35 :: a36 :: a37 :: a38 :: [] =>
    .ok rem ⟨a1, a2, a3, a4, a5, a6, a7, a8, a9, a10, a11, a12, a13, a14, a15,
      a16, a17, a18, a19, a20, a21, a22, a23, a24, a25, a26, a27, a28, a29,
      a30, a31, a32, a33, a34, cellToBool a35, cellToBool a36, cellToBool a37,
      cellToBool a38⟩
  | other => .panic (.arity "SPELL_DAMAGE" 38 other.length)

/-- `fn parse_spell_heal_line` from cell.rs: 33 cells, of which the first 31
are kept, the 32nd is boolean-coerced and the 33rd dropped; a count other than
33 is a recoverable `Err` (unlike the damage/cast decoders it does not
panic). -/
def parse_spell_heal_line (i : Input) : PR LogSpellHeal :=
  (spell_cols "SPELL_HEAL" i).bind fun rem cols =>
  match cols with
  | a1 :: a2 :: a3 :: a4 :: a5 :: a6 :: a7 :: a8 :: a9 :: a10 :: a11 :: a12 ::
    a13 :: a14 :: a15 :: a16 :: a17 :: a18 :: a19 :: a20 :: a21 :: a22 ::
    a23 :: a24 :: a25 :: a26 :: a27 :: a28 :: a29 :: a30 :: a31 :: a32 ::
    _ :: [] =>
    .ok rem ⟨a1, a2, a3, a4, a5, a6, a7, a8, a9, a10, a11, a12, a13, a14, a15,
      a16, a17, a18, a19, a20, a21, a22, a23, a24, a25, a26, a27, a28, a29,
      a30, a31, cellToBool a32⟩
  | _ => .err

/-- Rust `str::split_once(",")`: the substrings before and after the first
comma, or `None` when there is no comma. -/
def splitOnceComma : Input → Option (Input × Input)
  | [] => none
  | c :: t =>
    if c = ',' then some ([], t)
    else
      match splitOnceComma t with
      | some (a, b) => some (c :: a, b)
      | none => none

/-- `fn parse_log_csv` from cell.rs: peek at the substring before the first
comma (`split_once(",").unwrap()` — a body without a comma aborts), dispatch
on the four known tags, everything else is `NotSupported` with the body left
untouched. -/
def parse_log_csv (i : Input) : PR LogRow :=
  match splitOnceComma i with
  | none => .panic .unwrapNone
  | some (eventtype, _) =>
    if eventtype = "EMOTE".data then
      (parse_emote_line i).bind fun rem e => .ok rem (.Emote e)
    else if eventtype = "SPELL_CAST_SUCCESS".data then
      (parse_spell_cast_success_line i).bind fun rem e => .ok rem (.SpellCastSuccess e)
    else if eventtype = "SPELL_DAMAGE".data then
      (parse_spell_damage_line i).bind fun rem e => .ok rem (.SpellDamage e)
    else if eventtype = "SPELL_HEAL".data then
      (parse_spell_heal_line i).bind fun rem e => .ok rem (.SpellHeal e)
    else .ok i .NotSupported

/-- `fn parse_date` from mod.rs: `separated_pair(digit1, tag("/"), digit1)`. -/
def parse_date (i : Input) : PR (Input × Input) :=
  (takeWhile1 Char.isDigit i).bind fun j1 m =>
  (ptag ['/'] j1).bind fun j2 _ =>
  (takeWhile1 Char.isDigit j2).bind fun j3 d =>
  .ok j3 (m, d)

/-- `fn parse_time` from mod.rs: `digit1 : digit1 : digit1 . digit1` (the Rust
7-tuple keeps the separators; here only the four digit runs are returned). -/
def parse_time (i : Input) : PR (Input × Input × Input × Input) :=
  (takeWhile1 Char.isDigit i).bind fun j1 h =>
  (ptag [':'] j1).bind fun j2 _ =>
  (takeWhile1 Char.isDigit j2).bind fun j3 mi =>
  (ptag [':'] j3).bind fun j4 _ =>
  (takeWhile1 Char.isDigit j4).bind fun j5 s =>
  (ptag ['.'] j5).bind fun j6 _ =>
  (takeWhile1 Char.isDigit j6).bind fun j7 ms =>
  .ok j7 (h, mi, s, ms)

/-- `fn parse_date_time` from mod.rs: `separated_pair(parse_date, tag(" "),
parse_time)` mapped onto the six named components. -/
def parse_date_time (i : Input) : PR LogEventDateTime :=
  (parse_date i).bind fun j1 d =>
  (ptag [' '] j1).bind fun j2 _ =>
  (parse_time j2).bind fun j3 t =>
  .ok j3 ⟨d.1, d.2, t.1, t.2.1, t.2.2.1, t.2.2.2⟩

/-- The body of `fn parse_line` from mod.rs before its panic:
`separated_pair(parse_date_time, tag("  "), parse_log_csv)` — the timestamp,
exactly two literal spaces, then the event body. -/
def parse_line_inner (i : Input) : PR (LogEventDateTime × LogRow) :=
  (parse_date_time i).bind fun j1 dt =>
  (ptag [' ', ' '] j1).bind fun j2 _ =>
  (parse_log_csv j2).bind fun j3 row =>
  .ok j3 (dt, row)

/-- Result of `fn parse_line` from mod.rs: either the parsed triple, or a
process abort (`parse_line` panics whenever the inner parser returns an
error, and panics from inside it propagate). -/
inductive LineOut where
  | ok (rem : Input) (dt : LogEventDateTime) (row : LogRow)
  | panic (p : RPanic)
  | more
deriving Repr

/-- `fn parse_line` from mod.rs: run the framing parser and panic on a parse
error (the `panic!("Failed to parse input: ...")`). -/
def parse_line (i : Input) : LineOut :=
  match parse_line_inner i with
  | .ok rem (dt, row) => .ok rem dt row
  | .err => .panic .badLine
  | .panic q => .panic q
  | .more => .more

example :
    parse_line "8/3 20:15:42.123  EMOTE,Player-1-ABC,\"Thrall\",0x0,0x0,Hello there".data =
    .ok [] ⟨"8".data, "3".data, "20".data, "15".data, "42".data, "123".data⟩
      (.Emote ⟨"EMOTE".data, "Player-1-ABC".data, "\"Thrall\"".data, "0x0".data,
        "0x0,Hello there".data⟩) := rfl

example : parse_log_csv "UNKNOWN_EVENT,1,2,3".data =
    .ok "UNKNOWN_EVENT,1,2,3".data .NotSupported := rfl

example : parse_spell_cast_success_line "SPELL_CAST_SUCCESS,1,".data =
    .panic .sliceOutOfRange := rfl

/-! ## Basic scanning lemmas -/

theorem takeWhile_append_blocked (p : Char → Bool) (ds r : Input)
    (h1 : ∀ c ∈ ds, p c = true) (h2 : ∀ c, r.head? = some c → p c = false) :
    (ds ++ r).takeWhile p = ds ∧ (ds ++ r).dropWhile p = r := by
  induction ds with
  | nil =>
    simp only [List.nil_append]
    cases r with
    | nil => simp
    | cons c t =>
      have hc : p c = false := h2 c rfl
      simp [List.takeWhile_cons, List.dropWhile_cons, hc]
  | cons d ds ih =>
    have hd : p d = true := h1 d (by simp)
    have ih2 := ih (fun c hc => h1 c (by simp [hc]))
    simp [List.takeWhile_cons, List.dropWhile_cons, hd, ih2.1, ih2.2]

theorem takeWhile1_append (p : Char → Bool) (ds r : Input) (hne : ds ≠ [])
    (h1 : ∀ c ∈ ds, p c = true) (h2 : ∀ c, r.head? = some c → p c = false) :
    takeWhile1 p (ds ++ r) = .ok r ds := by
  have h := takeWhile_append_blocked p ds r h1 h2
  simp [takeWhile1, h.1, h.2, hne]

theorem takeWhile1_ok (p : Char → Bool) (i r t : Input)
    (h : takeWhile1 p i = .ok r t) :
    i = t ++ r ∧ t ≠ [] ∧ (∀ c ∈ t, p c = true) ∧
      (∀ c, r.head? = some c → p c = false) := by
  unfold takeWhile1 at h
  by_cases hw : i.takeWhile p = []
  · simp [hw] at h
  · simp [hw] at h
    obtain ⟨hr, ht⟩ := h
    subst hr ht
    refine ⟨(List.takeWhile_append_dropWhile p i).symm, hw, ?_, ?_⟩
    · exact fun c hc => List.mem_takeWhile_imp hc
    · intro c hc
      have h0 := List.head?_dropWhile_not p i
      rw [hc] at h0
      exact h0

/-! ## Claim theorems (first group) -/

/-- C5: the boolean coercion used for flag fields tests: nonzero for Integer
and Float, first element nonzero for MultiPower, nonempty for String and for
Array; and the bare unquoted token `nil` decodes as the non-empty string
"nil", which coerces to `true`. -/
theorem claim_C5_bool_coercion :
    (∀ v : Int, cellToBool (.Integer v) = true ↔ v ≠ 0) ∧
    (∀ q : ℚ, cellToBool (.Float q) = true ↔ q ≠ 0) ∧
    (∀ p : Int × Int, cellToBool (.MultiPowerCell p) = true ↔ p.1 ≠ 0) ∧
    (∀ s : Input, cellToBool (.Str s) = true ↔ s ≠ []) ∧
    (∀ xs : List LogCell, cellToBool (.Array xs) = true ↔ xs ≠ []) ∧
    parse_log_cell "nil".data = .ok [] (.Str "nil".data) ∧
    cellToBool (.Str "nil".data) = true := by
  refine ⟨?_, ?_, ?_, ?_, ?_, rfl, rfl⟩
  · intro v; simp [cellToBool]
  · intro q; simp [cellToBool]
  · intro p; simp [cellToBool]
  · intro s; simp [cellToBool]
  · intro xs; simp [cellToBool, List.length_eq_zero]

/-- C4: `"5|3"` decodes as MultiPower (5,3) with empty remainder, and the
MultiPower alternative takes precedence: whenever `parse_multi_power`
succeeds, `parse_number` returns exactly its result (so a numeric pair is
never mis-parsed as a bare integer with leftover input). -/
theorem claim_C4_multipower_precedence :
    parse_number "5|3".data = .ok [] (.MultiPowerCell (5, 3)) ∧
    ∀ i r c, parse_multi_power i = .ok r c → parse_number i = .ok r c := by
  refine ⟨rfl, ?_⟩
  intro i r c h
  unfold parse_number
  rw [h]

/-- C4 witness: the precedence conjunct applied at the concrete input `5|3`. -/
theorem claim_C4_witness :
    parse_number "5|3".data = .ok [] (.MultiPowerCell (5, 3)) :=
  claim_C4_multipower_precedence.2 "5|3".data [] (.MultiPowerCell (5, 3)) rfl

/-- C7: any event body whose prefix before the first comma is none of the four
implemented tags dispatches to NotSupported, without error and with the body
returned untouched as the remainder. -/
theorem claim_C7_unknown_tag (i pre post : Input)
    (h : splitOnceComma i = some (pre, post))
    (h1 : pre ≠ "EMOTE".data) (h2 : pre ≠ "SPELL_CAST_SUCCESS".data)
    (h3 : pre ≠ "SPELL_DAMAGE".data) (h4 : pre ≠ "SPELL_HEAL".data) :
    parse_log_csv i = .ok i .NotSupported := by
  unfold parse_log_csv
  rw [h]
  simp [h1, h2, h3, h4]

/-- C7 witness: the body `UNKNOWN_EVENT,1,2,3` dispatches to NotSupported. -/
theorem claim_C7_witness :
    parse_log_csv "UNKNOWN_EVENT,1,2,3".data =
      .ok "UNKNOWN_EVENT,1,2,3".data .NotSupported :=
  claim_C7_unknown_tag _ "UNKNOWN_EVENT".data "1,2,3".data rfl
    (by decide) (by decide) (by decide) (by decide)

/-- C9: the cell parser is not total on empty input: `parse_log_cell` (and the
`parse_string` it reaches) slices `input[0..1]` out of range and aborts
instead of returning a grammar error, and this abort is reachable from a
public event decoder through a body with a trailing comma (`separated_list1`
re-invokes the cell parser on the empty remaining input). -/
theorem claim_C9_empty_input_abort :
    parse_log_cell [] = .panic .sliceOutOfRange ∧
    parse_string [] = .panic .sliceOutOfRange ∧
    parse_spell_cast_success_line "SPELL_CAST_SUCCESS,1,".data =
      .panic .sliceOutOfRange := by
  exact ⟨rfl, rfl, rfl⟩

/-! ## Shape lemmas for the numeric alternatives -/

theorem parse_float_digits_shape (neg : Bool) (j r : Input) (c : LogCell)
    (h : parse_float_digits neg j = .ok r c) : ∃ q, c = .Float q := by
  simp only [parse_float_digits] at h
  repeat' split at h
  all_goals
    first
      | exact PR.noConfusion h
      | (obtain ⟨-, hc⟩ := PR.ok.inj h; exact ⟨_, hc.symm⟩)

theorem parse_float_shape (i r : Input) (c : LogCell) (h : parse_float i = .ok r c) :
    ∃ q, c = .Float q := by
  unfold parse_float at h
  split at h
  · exact parse_float_digits_shape _ _ _ _ h
  · exact parse_float_digits_shape _ _ _ _ h

theorem parse_integer_digits_shape (neg : Bool) (j r : Input) (c : LogCell)
    (h : parse_integer_digits neg j = .ok r c) : ∃ v, c = .Integer v := by
  simp only [parse_integer_digits] at h
  repeat' split at h
  all_goals
    first
      | exact PR.noConfusion h
      | (obtain ⟨-, hc⟩ := PR.ok.inj h; exact ⟨_, hc.symm⟩)

theorem parse_integer_shape (i r : Input) (c : LogCell) (h : parse_integer i = .ok r c) :
    ∃ v, c = .Integer v := by
  unfold parse_integer at h
  split at h
  · exact parse_integer_digits_shape _ _ _ _ h
  · exact parse_integer_digits_shape _ _ _ _ h

/-- Running `parse_multi_power` on input starting with `-`: `digit1` fails at
once, so the whole alternative fails. -/
theorem parse_multi_power_dash (t : Input) : parse_multi_power ('-' :: t) = .err := rfl

/-- The body of `parse_integer` on input starting with `-`, exposed. -/
theorem parse_integer_dash_run (l : Input) :
    parse_integer ('-' :: l) =
      (if l.takeWhile Char.isDigit = [] then .err
       else if (-(digitsVal (l.takeWhile Char.isDigit) : Int) < -(2 ^ 63) ∨
           (2 ^ 63 - 1 : Int) < -(digitsVal (l.takeWhile Char.isDigit) : Int)) then .err
       else .ok (l.dropWhile Char.isDigit)
         (.Integer (-(digitsVal (l.takeWhile Char.isDigit) : Int)))) := rfl

/-- The body of `parse_float` on input starting with `-`, exposed. -/
theorem parse_float_dash_run (l : Input) :
    parse_float ('-' :: l) =
      (if l.takeWhile Char.isDigit = [] then .err
       else
         match l.dropWhile Char.isDigit with
         | '.' :: j2 =>
           if j2.takeWhile Char.isDigit = [] then .err
           else .ok (j2.dropWhile Char.isDigit)
             (.Float (-((digitsVal (l.takeWhile Char.isDigit) : ℚ) +
               (digitsVal (j2.takeWhile Char.isDigit) : ℚ) /
                 ((10 : ℚ) ^ (j2.takeWhile Char.isDigit).length))))
         | _ => .err) := rfl

/-! ## Claim C2 -/

/-- C2 counterexample: on `0xAB12` the hex arm does NOT preserve the whole
literal — the produced string content is `AB12`, the `0x` prefix having been
consumed by `tag("0x")` and dropped by the `map` that keeps only the
`alphanumeric1` capture. -/
theorem claim_C2_counterexample :
    parse_log_cell "0xAB12".data ≠ .ok [] (.Str "0xAB12".data) := by
  have h : parse_log_cell "0xAB12".data = .ok [] (.Str "AB12".data) := rfl
  rw [h]
  intro he
  obtain ⟨-, hc⟩ := PR.ok.inj he
  exact absurd (LogCell.Str.inj hc) (by decide)

/-- C2 amended: for an input `0x` followed by a nonempty alphanumeric run, the
cell parser succeeds with a String cell whose content is the alphanumeric run
only — the `0x` prefix is consumed but not kept in the produced string. -/
theorem claim_C2_hex_amended (ds rest : Input) (hne : ds ≠ [])
    (hall : ∀ c ∈ ds, c.isAlphanum = true)
    (hstop : ∀ c, rest.head? = some c → c.isAlphanum = false) :
    parse_log_cell ('0' :: 'x' :: (ds ++ rest)) = .ok rest (.Str ds) := by
  have harr := takeWhile1_append Char.isAlphanum ds rest hne hall hstop
  have hdisp : parse_log_cell ('0' :: 'x' :: (ds ++ rest)) =
      parse_hex ('0' :: 'x' :: (ds ++ rest)) := rfl
  have hp : ptag ['0', 'x'] ('0' :: 'x' :: (ds ++ rest)) =
      .ok (ds ++ rest) ['0', 'x'] := rfl
  rw [hdisp]
  simp only [parse_hex, hp, harr]

/-- C2 witness: the amended hex behavior at the concrete input `0xAB12`. -/
theorem claim_C2_witness :
    parse_log_cell "0xAB12".data = .ok [] (.Str "AB12".data) :=
  claim_C2_hex_amended "AB12".data [] (by decide) (by decide) (by simp)

/-! ## Claim C10 -/

/-- C10 counterexample: for the input `-9223372036854775809|1` (whose signed
prefix is one below the minimum of `i64`), `str::parse::<i64>` fails, so the
number parser returns a recoverable error — it does not yield
`Integer(-9223372036854775809)` with remainder `|1` as the universally
quantified claim asserts. -/
theorem claim_C10_counterexample :
    parse_number "-9223372036854775809|1".data = .err ∧
    parse_number "-9223372036854775809|1".data ≠
      .ok "|1".data (.Integer (-9223372036854775809)) := by
  refine ⟨rfl, ?_⟩
  intro h
  rw [(rfl : parse_number "-9223372036854775809|1".data = .err)] at h
  exact PR.noConfusion h

/-- C10 amended: a number input of the form `-digits|digits` never produces a
MultiPower cell (first conjunct: no input starting with `-` can), and when the
signed prefix fits in `i64` (absolute value at most 2^63) the number parser
yields the Integer of the signed prefix with the `|digits` part left as
remainder. -/
theorem claim_C10_amended :
    (∀ t r p, parse_number ('-' :: t) ≠ .ok r (.MultiPowerCell p)) ∧
    (∀ ds1 ds2 : Input, ds1 ≠ [] → (∀ c ∈ ds1, c.isDigit = true) →
      digitsVal ds1 ≤ 2 ^ 63 →
      parse_number ('-' :: (ds1 ++ '|' :: ds2)) =
        .ok ('|' :: ds2) (.Integer (-(digitsVal ds1 : Int)))) := by
  constructor
  · intro t r p h
    unfold parse_number at h
    rw [parse_multi_power_dash t] at h
    cases hf : parse_float ('-' :: t) with
    | ok rf cf =>
      rw [hf] at h
      obtain ⟨q, hq⟩ := parse_float_shape _ _ _ hf
      obtain ⟨-, hc⟩ := PR.ok.inj h
      rw [hq] at hc
      exact LogCell.noConfusion hc
    | err =>
      rw [hf] at h
      obtain ⟨v, hv⟩ := parse_integer_shape _ _ _ h
      exact LogCell.noConfusion hv
    | panic q =>
      rw [hf] at h
      exact PR.noConfusion h
    | more =>
      rw [hf] at h
      exact PR.noConfusion h
  · intro ds1 ds2 hne hd hval
    have hblock : ∀ c : Char, (('|' :: ds2 : Input)).head? = some c → c.isDigit = false := by
      intro c hc
      simp at hc
      subst hc
      decide
    have harr := takeWhile_append_blocked Char.isDigit ds1 ('|' :: ds2) hd hblock
    have hfl : parse_float ('-' :: (ds1 ++ '|' :: ds2)) = .err := by
      rw [parse_float_dash_run, if_neg (by rw [harr.1]; exact hne), harr.2]
      rfl
    have hint : parse_integer ('-' :: (ds1 ++ '|' :: ds2)) =
        .ok ('|' :: ds2) (.Integer (-(digitsVal ds1 : Int))) := by
      rw [parse_integer_dash_run, harr.1, harr.2, if_neg hne, if_neg ?hrange]
      case hrange =>
        rintro (hlt | hgt)
        · have hc : (digitsVal ds1 : Int) ≤ 2 ^ 63 := by exact_mod_cast hval
          omega
        · have hc : (0 : Int) ≤ (digitsVal ds1 : Int) := Int.ofNat_nonneg _
          omega
    unfold parse_number
    rw [parse_multi_power_dash, hfl, hint]

/-- C10 witness: the amended statement at the concrete input `-5|3`. -/
theorem claim_C10_witness :
    parse_number "-5|3".data = .ok "|3".data (.Integer (-5)) :=
  claim_C10_amended.2 "5".data "3".data (by decide) (by decide) (by decide)

/-! ## Claim C1 -/

/-- C1 counterexample: a SPELL_DAMAGE body decoding to 37 cells makes
`parse_spell_damage_line` hit its `panic!` — modeled as the `panic` outcome
carrying expected 38 and actual 37 — rather than return the recoverable
error (`err`) that the claim asserts ("recoverable at the line level, does
not abort the run").  A Rust panic aborts the run. -/
theorem claim_C1_counterexample :
    parse_spell_damage_line
        "SPELL_DAMAGE,1,2,3,4,5,6,7,8,9,10,11,12,13,14,15,16,17,18,19,20,21,22,23,24,25,26,27,28,29,30,31,32,33,34,35,36,37".data =
      .panic (.arity "SPELL_DAMAGE" 38 37) ∧
    parse_spell_damage_line
        "SPELL_DAMAGE,1,2,3,4,5,6,7,8,9,10,11,12,13,14,15,16,17,18,19,20,21,22,23,24,25,26,27,28,29,30,31,32,33,34,35,36,37".data ≠
      .err := by
  refine ⟨rfl, ?_⟩
  intro h
  rw [(rfl : parse_spell_damage_line
      "SPELL_DAMAGE,1,2,3,4,5,6,7,8,9,10,11,12,13,14,15,16,17,18,19,20,21,22,23,24,25,26,27,28,29,30,31,32,33,34,35,36,37".data =
    .panic (.arity "SPELL_DAMAGE" 38 37))] at h
  exact PR.noConfusion h

/-- C1 amended: whenever the SPELL_DAMAGE prefix (tag, comma, cell list)
decodes to exactly 38 cells, `parse_spell_damage_line` succeeds, mapping the
cells positionally and obtaining the final four fields (critical, glancing,
crushing, isOffHand) by the boolean coercion of cells 35, 36, 37 and 38; and
whenever it decodes to exactly 37 cells, the decoder panics (process abort,
not a recoverable line-level error), the panic reporting expected 38 and
actual 37. -/
theorem claim_C1_spell_damage_arity :
    (∀ i rem c1 c2 c3 c4 c5 c6 c7 c8 c9 c10 c11 c12 c13 c14 c15 c16 c17 c18
        c19 c20 c21 c22 c23 c24 c25 c26 c27 c28 c29 c30 c31 c32 c33 c34 c35
        c36 c37 c38,
      spell_cols "SPELL_DAMAGE" i =
          .ok rem (c1 :: c2 :: c3 :: c4 :: c5 :: c6 :: c7 :: c8 :: c9 :: c10 ::
            c11 :: c12 :: c13 :: c14 :: c15 :: c16 :: c17 :: c18 :: c19 ::
            c20 :: c21 :: c22 :: c23 :: c24 :: c25 :: c26 :: c27 :: c28 ::
            c29 :: c30 :: c31 :: c32 :: c33 :: c34 :: c35 :: c36 :: c37 ::
            c38 :: []) →
        parse_spell_damage_line i =
          .ok rem ⟨c1, c2, c3, c4, c5, c6, c7, c8, c9, c10, c11, c12, c13,
            c14, c15, c16, c17, c18, c19, c20, c21, c22, c23, c24, c25, c26,
            c27, c28, c29, c30, c31, c32, c33, c34, cellToBool c35,
            cellToBool c36, cellToBool c37, cellToBool c38⟩) ∧
    (∀ i rem c1 c2 c3 c4 c5 c6 c7 c8 c9 c10 c11 c12 c13 c14 c15 c16 c17 c18
        c19 c20 c21 c22 c23 c24 c25 c26 c27 c28 c29 c30 c31 c32 c33 c34 c35
        c36 c37,
      spell_cols "SPELL_DAMAGE" i =
          .ok rem (c1 :: c2 :: c3 :: c4 :: c5 :: c6 :: c7 :: c8 :: c9 :: c10 ::
            c11 :: c12 :: c13 :: c14 :: c15 :: c16 :: c17 :: c18 :: c19 ::
            c20 :: c21 :: c22 :: c23 :: c24 :: c25 :: c26 :: c27 :: c28 ::
            c29 :: c30 :: c31 :: c32 :: c33 :: c34 :: c35 :: c36 :: c37 ::
            []) →
        parse_spell_damage_line i = .panic (.arity "SPELL_DAMAGE" 38 37)) := by
  constructor
  · intro i rem c1 c2 c3 c4 c5 c6 c7 c8 c9 c10 c11 c12 c13 c14 c15 c16 c17
      c18 c19 c20 c21 c22 c23 c24 c25 c26 c27 c28 c29 c30 c31 c32 c33 c34
      c35 c36 c37 c38 h
    simp only [parse_spell_damage_line, h, PR.bind]
  · intro i rem c1 c2 c3 c4 c5 c6 c7 c8 c9 c10 c11 c12 c13 c14 c15 c16 c17
      c18 c19 c20 c21 c22 c23 c24 c25 c26 c27 c28 c29 c30 c31 c32 c33 c34
      c35 c36 c37 h
    simp only [parse_spell_damage_line, h, PR.bind, List.length_cons,
      List.length_nil]

/-- C1 witness: the 38-cell conjunct applied to a concrete body of 38 cells
(cell 9 is the bare token `9`, which the grammar reads as a string since `9`
is absent from the numeric dispatch; all four trailing flag cells are nonzero
integers, so all four booleans come out true). -/
theorem claim_C1_witness :
    parse_spell_damage_line
        "SPELL_DAMAGE,1,2,3,4,5,6,7,8,9,10,11,12,13,14,15,16,17,18,19,20,21,22,23,24,25,26,27,28,29,30,31,32,33,34,35,36,37,38".data =
      .ok [] ⟨.Integer 1, .Integer 2, .Integer 3, .Integer 4, .Integer 5,
        .Integer 6, .Integer 7, .Integer 8, .Str ['9'], .Integer 10,
        .Integer 11, .Integer 12, .Integer 13, .Integer 14, .Integer 15,
        .Integer 16, .Integer 17, .Integer 18, .Integer 19, .Integer 20,
        .Integer 21, .Integer 22, .Integer 23, .Integer 24, .Integer 25,
        .Integer 26, .Integer 27, .Integer 28, .Integer 29, .Integer 30,
        .Integer 31, .Integer 32, .Integer 33, .Integer 34, true, true,
        true, true⟩ :=
  claim_C1_spell_damage_arity.1 _ [] (.Integer 1) (.Integer 2) (.Integer 3)
    (.Integer 4) (.Integer 5) (.Integer 6) (.Integer 7) (.Integer 8)
    (.Str ['9']) (.Integer 10) (.Integer 11) (.Integer 12) (.Integer 13)
    (.Integer 14) (.Integer 15) (.Integer 16) (.Integer 17) (.Integer 18)
    (.Integer 19) (.Integer 20) (.Integer 21) (.Integer 22) (.Integer 23)
    (.Integer 24) (.Integer 25) (.Integer 26) (.Integer 27) (.Integer 28)
    (.Integer 29) (.Integer 30) (.Integer 31) (.Integer 32) (.Integer 33)
    (.Integer 34) (.Integer 35) (.Integer 36) (.Integer 37) (.Integer 38) rfl

/-! ## Claim C3 -/

/-- C3: evaluation of the code on the end-to-end emote line.  The datetime
components come out as the claim says, but the emote record does not:
`parse_emote_line` is handed the whole body and, unlike the spell decoders,
never consumes the `EMOTE` tag first, so every field is shifted by one —
sourceGUID captures the tag `EMOTE`, sourcename captures the GUID,
sourceflags captures the still-quoted `"Thrall"` (quotes included, no
unescaping is attempted), sourceraidflags captures the first flags field, and
the free text swallows the second flags field.  The second conjunct records
that this differs from the record the claim (and spec §4.4, source-field
naming) describes, which is the evident intent. -/
theorem claim_C3_emote_eval :
    parse_line "8/3 20:15:42.123  EMOTE,Player-1-ABC,\"Thrall\",0x0,0x0,Hello there".data =
      .ok [] ⟨"8".data, "3".data, "20".data, "15".data, "42".data, "123".data⟩
        (.Emote ⟨"EMOTE".data, "Player-1-ABC".data, "\"Thrall\"".data,
          "0x0".data, "0x0,Hello there".data⟩) ∧
    (⟨"EMOTE".data, "Player-1-ABC".data, "\"Thrall\"".data, "0x0".data,
        "0x0,Hello there".data⟩ : LogEmote) ≠
      ⟨"Player-1-ABC".data, "Thrall".data, "0x0".data, "0x0".data,
        "Hello there".data⟩ :=
  ⟨rfl, by decide⟩

/-! ## Claim C8 -/

/-- Consuming a single-character literal separator. -/
theorem ptag_cons (c : Char) (l : Input) : ptag [c] (c :: l) = .ok l [c] := by
  simp [ptag]

/-- Heads blocked from extending a digit run. -/
theorem head_block (c : Char) (l : Input) (hc : c.isDigit = false) :
    ∀ x : Char, ((c :: l : Input)).head? = some x → x.isDigit = false := by
  intro x hx
  simp only [List.head?_cons, Option.some.injEq] at hx
  subst hx
  exact hc

/-- C8: the line framer.  First conjunct: the timestamp grammar accepts
exactly `digits/digits digits:digits:digits.digits` with the literal
separators — the components are arbitrary nonempty digit runs with no
numeric-range validation.  Second conjunct: after the timestamp the framer
demands exactly two literal spaces and hands the rest to the body parser.
Third conjunct: any line on which the framing parser fails with a
(recoverable) error makes `parse_line` panic — a fatal abort, not a per-line
result. -/
theorem claim_C8_line_framing :
    (∀ m d h mi s ms rest : Input,
      m ≠ [] → (∀ c ∈ m, c.isDigit = true) →
      d ≠ [] → (∀ c ∈ d, c.isDigit = true) →
      h ≠ [] → (∀ c ∈ h, c.isDigit = true) →
      mi ≠ [] → (∀ c ∈ mi, c.isDigit = true) →
      s ≠ [] → (∀ c ∈ s, c.isDigit = true) →
      ms ≠ [] → (∀ c ∈ ms, c.isDigit = true) →
      (∀ x : Char, rest.head? = some x → x.isDigit = false) →
      parse_date_time
          (m ++ '/' :: (d ++ ' ' :: (h ++ ':' :: (mi ++ ':' ::
            (s ++ '.' :: (ms ++ rest)))))) =
        .ok rest ⟨m, d, h, mi, s, ms⟩) ∧
    (∀ i j : Input, ∀ dt, parse_date_time i = .ok j dt →
      parse_line_inner i =
        (ptag [' ', ' '] j).bind fun j2 _ =>
          (parse_log_csv j2).bind fun j3 row => .ok j3 (dt, row)) ∧
    (∀ i : Input, parse_line_inner i = .err → parse_line i = .panic .badLine) := by
  refine ⟨?_, ?_, ?_⟩
  · intro m d h mi s ms rest hm1 hm2 hd1 hd2 hh1 hh2 hmi1 hmi2 hs1 hs2 hms1
      hms2 hrest
    have e1 := takeWhile1_append Char.isDigit m
      ('/' :: (d ++ ' ' :: (h ++ ':' :: (mi ++ ':' :: (s ++ '.' :: (ms ++ rest))))))
      hm1 hm2 (head_block _ _ (by decide))
    have e2 := takeWhile1_append Char.isDigit d
      (' ' :: (h ++ ':' :: (mi ++ ':' :: (s ++ '.' :: (ms ++ rest)))))
      hd1 hd2 (head_block _ _ (by decide))
    have e3 := takeWhile1_append Char.isDigit h
      (':' :: (mi ++ ':' :: (s ++ '.' :: (ms ++ rest))))
      hh1 hh2 (head_block _ _ (by decide))
    have e4 := takeWhile1_append Char.isDigit mi
      (':' :: (s ++ '.' :: (ms ++ rest)))
      hmi1 hmi2 (head_block _ _ (by decide))
    have e5 := takeWhile1_append Char.isDigit s
      ('.' :: (ms ++ rest))
      hs1 hs2 (head_block _ _ (by decide))
    have e6 := takeWhile1_append Char.isDigit ms rest hms1 hms2 hrest
    simp only [parse_date_time, parse_date, parse_time, e1, e2, e3, e4, e5,
      e6, ptag_cons, PR.bind]
  · intro i j dt hdt
    simp only [parse_line_inner, hdt, PR.bind]
  · intro i hi
    simp only [parse_line, hi]

/-- C8 witness: the timestamp conjunct at month 99, day 99, hour 99 — numbers
far outside calendar range, accepted because only the digit-run shape is
checked — and the fatality conjunct at a line that is not in timestamp
shape. -/
theorem claim_C8_witness :
    parse_date_time "99/99 99:99:99.999".data =
      .ok [] ⟨"99".data, "99".data, "99".data, "99".data, "99".data,
        "999".data⟩ ∧
    parse_line "notatimestamp".data = .panic .badLine :=
  ⟨claim_C8_line_framing.1 "99".data "99".data "99".data "99".data "99".data
      "999".data [] (by decide) (by decide) (by decide) (by decide)
      (by decide) (by decide) (by decide) (by decide) (by decide) (by decide)
      (by decide) (by decide) (by intro x hx; simp at hx),
    claim_C8_line_framing.2.2 "notatimestamp".data rfl⟩

/-! ## Groundwork for the array round-trip claim: consumption bounds -/

theorem ptag_ok (t i r v : Input) (h : ptag t i = .ok r v) :
    v = t ∧ i = t ++ r := by
  unfold ptag at h
  split at h
  · rename_i hc
    obtain ⟨hr, hv⟩ := PR.ok.inj h
    constructor
    · exact hv.symm
    · rw [← hc, ← hr, List.take_append_drop]
  · exact PR.noConfusion h

theorem dropWhile_length_lt (p : Char → Bool) (l : Input)
    (h : l.takeWhile p ≠ []) : (l.dropWhile p).length < l.length := by
  have hlen : (l.takeWhile p).length + (l.dropWhile p).length = l.length := by
    rw [← List.length_append, List.takeWhile_append_dropWhile]
  have hpos : 0 < (l.takeWhile p).length := List.length_pos.mpr h
  omega

theorem dropWhile_length_le (p : Char → Bool) (l : Input) :
    (l.dropWhile p).length ≤ l.length := by
  have hlen : (l.takeWhile p).length + (l.dropWhile p).length = l.length := by
    rw [← List.length_append, List.takeWhile_append_dropWhile]
  omega

theorem takeWhile1_consume (p : Char → Bool) (i r t : Input)
    (h : takeWhile1 p i = .ok r t) : r.length < i.length := by
  obtain ⟨hi, hne, -, -⟩ := takeWhile1_ok p i r t h
  rw [hi, List.length_append]
  have := List.length_pos.mpr hne
  omega

theorem parse_integer_digits_consume (neg : Bool) (j r : Input) (c : LogCell)
    (h : parse_integer_digits neg j = .ok r c) : r.length < j.length := by
  simp only [parse_integer_digits] at h
  split at h
  · exact PR.noConfusion h
  · rename_i htw
    split at h
    · exact PR.noConfusion h
    · obtain ⟨hr, -⟩ := PR.ok.inj h
      rw [← hr]
      exact dropWhile_length_lt _ _ htw

theorem parse_float_digits_consume (neg : Bool) (j r : Input) (c : LogCell)
    (h : parse_float_digits neg j = .ok r c) : r.length < j.length := by
  simp only [parse_float_digits] at h
  split at h
  · exact PR.noConfusion h
  · rename_i htw
    split at h
    · rename_i j2 hdw
      split at h
      · exact PR.noConfusion h
      · obtain ⟨hr, -⟩ := PR.ok.inj h
        have h1 : (j.dropWhile Char.isDigit).length < j.length :=
          dropWhile_length_lt _ _ htw
        have h2 : (j.dropWhile Char.isDigit).length = j2.length + 1 := by
          rw [hdw]; rfl
        have h3 : (j2.dropWhile Char.isDigit).length ≤ j2.length :=
          dropWhile_length_le _ j2
        rw [← hr]
        omega
    · exact PR.noConfusion h

theorem parse_integer_consume (i r : Input) (c : LogCell)
    (h : parse_integer i = .ok r c) : r.length < i.length := by
  unfold parse_integer at h
  split at h
  · rename_i j
    have := parse_integer_digits_consume _ _ _ _ h
    simp only [List.length_cons]
    omega
  · exact parse_integer_digits_consume _ _ _ _ h

theorem parse_float_consume (i r : Input) (c : LogCell)
    (h : parse_float i = .ok r c) : r.length < i.length := by
  unfold parse_float at h
  split at h
  · rename_i j
    have := parse_float_digits_consume _ _ _ _ h
    simp only [List.length_cons]
    omega
  · exact parse_float_digits_consume _ _ _ _ h

theorem parse_multi_power_consume (i r : Input) (c : LogCell)
    (h : parse_multi_power i = .ok r c) : r.length < i.length := by
  simp only [parse_multi_power] at h
  split at h
  · exact PR.noConfusion h
  · rename_i htw
    split at h
    · exact PR.noConfusion h
    · split at h
      · rename_i j2 hdw
        split at h
        · exact PR.noConfusion h
        · split at h
          · exact PR.noConfusion h
          · obtain ⟨hr, -⟩ := PR.ok.inj h
            have h1 : (i.dropWhile Char.isDigit).length < i.length :=
              dropWhile_length_lt _ _ htw
            have h2 : (i.dropWhile Char.isDigit).length = j2.length + 1 := by
              rw [hdw]; rfl
            have h3 : (j2.dropWhile Char.isDigit).length ≤ j2.length :=
              dropWhile_length_le _ j2
            rw [← hr]
            omega
      · exact PR.noConfusion h

theorem parse_number_consume (i r : Input) (c : LogCell)
    (h : parse_number i = .ok r c) : r.length < i.length := by
  unfold parse_number at h
  cases hm : parse_multi_power i with
  | ok rm cm =>
    rw [hm] at h
    obtain ⟨hr, -⟩ := PR.ok.inj h
    rw [← hr]
    exact parse_multi_power_consume _ _ _ hm
  | err =>
    rw [hm] at h
    cases hf : parse_float i with
    | ok rf cf =>
      rw [hf] at h
      obtain ⟨hr, -⟩ := PR.ok.inj h
      rw [← hr]
      exact parse_float_consume _ _ _ hf
    | err =>
      rw [hf] at h
      exact parse_integer_consume _ _ _ h
    | panic q => rw [hf] at h; exact PR.noConfusion h
    | more => rw [hf] at h; exact PR.noConfusion h
  | panic q => rw [hm] at h; exact PR.noConfusion h
  | more => rw [hm] at h; exact PR.noConfusion h

theorem parse_string_consume (i r : Input) (c : LogCell)
    (h : parse_string i = .ok r c) : r.length < i.length := by
  unfold parse_string at h
  split at h
  · exact PR.noConfusion h
  · -- icon-path arm: i = bar :: tail
    rename_i tail
    cases hp : ptag ['|', 'T'] ('|' :: tail) with
    | ok j v =>
      simp only [hp] at h
      cases htw : takeWhile1 is_valid_emote j with
      | ok j2 v2 =>
        simp only [htw] at h
        cases hb : ptag ['!'] j2 with
        | ok j3 v3 =>
          simp only [hb] at h
          obtain ⟨hr, -⟩ := PR.ok.inj h
          obtain ⟨-, hi⟩ := ptag_ok _ _ _ _ hp
          obtain ⟨-, hj2⟩ := ptag_ok _ _ _ _ hb
          have h1 := takeWhile1_consume _ _ _ _ htw
          subst hr
          have h2 := congrArg List.length hi
          have h3 := congrArg List.length hj2
          simp only [List.length_cons, List.length_append] at h2 h3 ⊢
          omega
        | err => simp only [hb] at h; exact PR.noConfusion h
        | panic q => simp only [hb] at h; exact PR.noConfusion h
        | more => simp only [hb] at h; exact PR.noConfusion h
      | err => simp only [htw] at h; exact PR.noConfusion h
      | panic q => simp only [htw] at h; exact PR.noConfusion h
      | more => simp only [htw] at h; exact PR.noConfusion h
    | err => simp only [hp] at h; exact PR.noConfusion h
    | panic q => simp only [hp] at h; exact PR.noConfusion h
    | more => simp only [hp] at h; exact PR.noConfusion h
  · -- quoted arm: i = quote :: tail
    rename_i tail
    cases htw : takeWhile1 is_valid_wrapped tail with
    | ok j2 v2 =>
      simp only [htw] at h
      split at h
      · rename_i j3
        obtain ⟨hr, -⟩ := PR.ok.inj h
        have h1 := takeWhile1_consume _ _ _ _ htw
        subst hr
        simp only [List.length_cons] at h1 ⊢
        omega
      · exact PR.noConfusion h
    | err => simp only [htw] at h; exact PR.noConfusion h
    | panic q => simp only [htw] at h; exact PR.noConfusion h
    | more => simp only [htw] at h; exact PR.noConfusion h
  · -- unquoted arm
    cases htw : takeWhile1 is_valid_unwrapped i with
    | ok j v =>
      simp only [htw] at h
      obtain ⟨hr, -⟩ := PR.ok.inj h
      rw [← hr]
      exact takeWhile1_consume _ _ _ _ htw
    | err => simp only [htw] at h; exact PR.noConfusion h
    | panic q => simp only [htw] at h; exact PR.noConfusion h
    | more => simp only [htw] at h; exact PR.noConfusion h

theorem parse_hex_consume (i r : Input) (c : LogCell)
    (h : parse_hex i = .ok r c) : r.length < i.length := by
  unfold parse_hex at h
  cases hp : ptag ['0', 'x'] i with
  | ok j v =>
    simp only [hp] at h
    cases htw : takeWhile1 Char.isAlphanum j with
    | ok j2 v2 =>
      simp only [htw] at h
      obtain ⟨hr, -⟩ := PR.ok.inj h
      obtain ⟨-, hi⟩ := ptag_ok _ _ _ _ hp
      have h1 := takeWhile1_consume _ _ _ _ htw
      rw [← hr, hi]
      simp only [List.length_append, List.length_cons]
      omega
    | err => simp only [htw] at h; exact PR.noConfusion h
    | panic q => simp only [htw] at h; exact PR.noConfusion h
    | more => simp only [htw] at h; exact PR.noConfusion h
  | err => simp only [hp] at h; exact PR.noConfusion h
  | panic q => simp only [hp] at h; exact PR.noConfusion h
  | more => simp only [hp] at h; exact PR.noConfusion h


theorem sepLoop_consume (p : Input → PR LogCell)
    (hp : ∀ i r c, p i = .ok r c → r.length < i.length) :
    ∀ (f : Nat) (j : Input) (acc : List LogCell) (r : Input) (cs : List LogCell),
      sepLoop p f j acc = .ok r cs → r.length ≤ j.length := by
  intro f
  induction f with
  | zero => intro j acc r cs h; exact PR.noConfusion h
  | succ g ih =>
    intro j acc r cs h
    unfold sepLoop at h
    split at h
    · rename_i j1
      cases hpj : p j1 with
      | ok j2 c =>
        simp only [hpj] at h
        have h1 := hp _ _ _ hpj
        have h2 := ih _ _ _ _ h
        simp only [List.length_cons]
        omega
      | err =>
        simp only [hpj] at h
        obtain ⟨hr, -⟩ := PR.ok.inj h
        subst hr
        exact Nat.le_refl _
      | panic q => simp only [hpj] at h; exact PR.noConfusion h
      | more => simp only [hpj] at h; exact PR.noConfusion h
    · obtain ⟨hr, -⟩ := PR.ok.inj h
      subst hr
      exact Nat.le_refl _

theorem parse_array_consume (p : Input → PR LogCell)
    (hp : ∀ i r c, p i = .ok r c → r.length < i.length)
    (f : Nat) (i : Input) (op cl : Char) (r : Input) (c : LogCell)
    (h : parse_array p f i op cl = .ok r c) : r.length < i.length := by
  unfold parse_array at h
  split at h
  · exact PR.noConfusion h
  · rename_i ch tail
    split at h
    · cases hpt : p tail with
      | err =>
        simp only [hpt] at h
        split at h
        · rename_i d j2
          split at h
          · obtain ⟨hr, -⟩ := PR.ok.inj h
            subst hr
            simp only [List.length_cons]
            omega
          · exact PR.noConfusion h
        · exact PR.noConfusion h
      | ok j1 c1 =>
        simp only [hpt] at h
        cases hl : sepLoop p f j1 [c1] with
        | ok jl cs =>
          simp only [hl] at h
          split at h
          · rename_i d j2
            split at h
            · obtain ⟨hr, -⟩ := PR.ok.inj h
              subst hr
              have h1 := hp _ _ _ hpt
              have h2 := sepLoop_consume p hp _ _ _ _ _ hl
              simp only [List.length_cons] at h2 ⊢
              omega
            · exact PR.noConfusion h
          · exact PR.noConfusion h
        | err => simp only [hl] at h; exact PR.noConfusion h
        | panic q => simp only [hl] at h; exact PR.noConfusion h
        | more => simp only [hl] at h; exact PR.noConfusion h
      | panic q => simp only [hpt] at h; exact PR.noConfusion h
      | more => simp only [hpt] at h; exact PR.noConfusion h
    · exact PR.noConfusion h

theorem parseCellF_consume : ∀ (f : Nat) (i r : Input) (c : LogCell),
    parseCellF f i = .ok r c → r.length < i.length := by
  intro f
  induction f with
  | zero => intro i r c h; exact PR.noConfusion h
  | succ g ih =>
    intro i r c h
    unfold parseCellF at h
    split at h
    · exact PR.noConfusion h
    · split at h
      · exact parse_array_consume _ ih _ _ _ _ _ _ h
      · split at h
        · exact parse_array_consume _ ih _ _ _ _ _ _ h
        · split at h
          · exact parse_integer_consume _ _ _ h
          · exact parse_string_consume _ _ _ h
    · split at h
      · exact parse_array_consume _ ih _ _ _ _ _ _ h
      · split at h
        · exact parse_array_consume _ ih _ _ _ _ _ _ h
        · split at h
          · split at h
            · exact parse_hex_consume _ _ _ h
            · exact parse_number_consume _ _ _ h
          · split at h
            · exact parse_number_consume _ _ _ h
            · exact parse_string_consume _ _ _ h

/-! ## Groundwork: inputs led by a closing delimiter always fail -/

/-- An input whose first character is a closing delimiter is a grammar error
for the cell parser (it is routed to `parse_string`, whose unquoted run
excludes `]` and `)`). -/
theorem parseCellF_bracket_err (f : Nat) (ch : Char) (t : Input)
    (hbr : ch = ']' ∨ ch = ')') : parseCellF (f + 1) (ch :: t) = .err := by
  rcases hbr with rfl | rfl <;> cases t <;> rfl

/-! ## Groundwork: more fuel never changes a settled result -/

theorem sepLoop_mono (p p' : Input → PR LogCell)
    (hp : ∀ i x, p i = x → x ≠ .more → p' i = x) :
    ∀ (f : Nat) (j : Input) (acc : List LogCell) (x : PR (List LogCell)),
      sepLoop p f j acc = x → x ≠ .more → sepLoop p' (f + 1) j acc = x := by
  intro f
  induction f with
  | zero =>
    intro j acc x h hx
    exact absurd h.symm (by simpa using hx)
  | succ g ih =>
    intro j acc x h hx
    unfold sepLoop at h
    split at h
    · rename_i j1
      cases hpj : p j1 with
      | ok j2 c =>
        simp only [hpj] at h
        have hp' := hp _ _ hpj (by simp)
        show sepLoop p' (g + 1 + 1) (',' :: j1) acc = x
        unfold sepLoop
        simp only [hp']
        exact ih _ _ _ h hx
      | err =>
        simp only [hpj] at h
        have hp' := hp _ _ hpj (by simp)
        show sepLoop p' (g + 1 + 1) (',' :: j1) acc = x
        unfold sepLoop
        simp only [hp']
        exact h
      | panic q =>
        simp only [hpj] at h
        have hp' := hp _ _ hpj (by simp)
        show sepLoop p' (g + 1 + 1) (',' :: j1) acc = x
        unfold sepLoop
        simp only [hp']
        exact h
      | more =>
        simp only [hpj] at h
        exact absurd h.symm (by simpa using hx)
    · rename_i hnc
      first
        | exact (hnc _ rfl).elim
        | (rw [← h]
           unfold sepLoop
           split
           · rename_i j1
             exact (hnc j1 rfl).elim
           · rfl)

theorem parse_array_mono (p p' : Input → PR LogCell)
    (hp : ∀ i x, p i = x → x ≠ .more → p' i = x)
    (f : Nat) (i : Input) (op cl : Char) (x : PR LogCell)
    (h : parse_array p f i op cl = x) (hx : x ≠ .more) :
    parse_array p' (f + 1) i op cl = x := by
  unfold parse_array at h ⊢
  split at h
  · rw [← h]
  · rename_i ch tail
    split at h
    · rename_i hop
      rw [if_pos hop]
      cases hpt : p tail with
      | err =>
        have hq := hp _ _ hpt (by simp)
        simp only [hpt] at h
        simp only [hq]
        exact h
      | panic q =>
        have hq := hp _ _ hpt (by simp)
        simp only [hpt] at h
        simp only [hq]
        exact h
      | more =>
        simp only [hpt] at h
        exact absurd h.symm (by simpa using hx)
      | ok j1 c1 =>
        have hq := hp _ _ hpt (by simp)
        simp only [hpt] at h
        simp only [hq]
        cases hl : sepLoop p f j1 [c1] with
        | ok jl cs =>
          have hl' := sepLoop_mono p p' hp _ _ _ _ hl (by simp)
          simp only [hl] at h
          simp only [hl']
          exact h
        | err =>
          have hl' := sepLoop_mono p p' hp _ _ _ _ hl (by simp)
          simp only [hl] at h
          simp only [hl']
          exact h
        | panic q =>
          have hl' := sepLoop_mono p p' hp _ _ _ _ hl (by simp)
          simp only [hl] at h
          simp only [hl']
          exact h
        | more =>
          simp only [hl] at h
          exact absurd h.symm (by simpa using hx)
    · rename_i hop
      rw [if_neg hop]
      exact h

theorem parseCellF_mono : ∀ (f : Nat) (i : Input) (x : PR LogCell),
    parseCellF f i = x → x ≠ .more → parseCellF (f + 1) i = x := by
  intro f
  induction f with
  | zero =>
    intro i x h hx
    exact absurd h.symm (by simpa using hx)
  | succ g ih =>
    intro i x h hx
    unfold parseCellF at h ⊢
    split at h
    · rw [← h]
    · rename_i ch
      split at h
      · rename_i hcp
        rw [if_pos hcp]
        exact parse_array_mono _ _ ih _ _ _ _ _ h hx
      · rename_i hcp
        rw [if_neg hcp]
        split at h
        · rename_i hcp2
          rw [if_pos hcp2]
          exact parse_array_mono _ _ ih _ _ _ _ _ h hx
        · rename_i hcp2
          rw [if_neg hcp2]
          exact h
    · rename_i c0 c1 rest
      split at h
      · rename_i hcp
        rw [if_pos hcp]
        exact parse_array_mono _ _ ih _ _ _ _ _ h hx
      · rename_i hcp
        rw [if_neg hcp]
        split at h
        · rename_i hcp2
          rw [if_pos hcp2]
          exact parse_array_mono _ _ ih _ _ _ _ _ h hx
        · rename_i hcp2
          rw [if_neg hcp2]
          exact h

theorem parseCellF_mono_le (f f' : Nat) (hle : f ≤ f') (i : Input)
    (x : PR LogCell) (h : parseCellF f i = x) (hx : x ≠ .more) :
    parseCellF f' i = x := by
  induction hle with
  | refl => exact h
  | step h' ih => exact parseCellF_mono _ _ _ ih hx

/-! ## Groundwork: locality of the leaf parsers

Appending input after the consumed span does not change a successful leaf
parse, provided the first unconsumed character is a structural stop character
(`,`, `]`, `)`), since those end every scanning run and match no pending
literal. -/

theorem head?_some_shape (l : Input) (tc : Char) (h : l.head? = some tc) :
    ∃ t, l = tc :: t := by
  cases l with
  | nil => simp at h
  | cons a t =>
    simp only [List.head?_cons, Option.some.injEq] at h
    subst h
    exact ⟨t, rfl⟩

theorem takeWhile1_local (p : Char → Bool) (i r t ext : Input) (tc : Char)
    (h : takeWhile1 p i = .ok r t) (hh : (r ++ ext).head? = some tc)
    (ht : p tc = false) : takeWhile1 p (i ++ ext) = .ok (r ++ ext) t := by
  obtain ⟨hi, hne, hall, -⟩ := takeWhile1_ok p i r t h
  rw [hi, List.append_assoc]
  exact takeWhile1_append p t (r ++ ext) hne hall
    (fun x hx => by rw [hh] at hx; cases hx; exact ht)

theorem parse_integer_digits_inv (neg : Bool) (j r : Input) (c : LogCell)
    (h : parse_integer_digits neg j = .ok r c) :
    j.takeWhile Char.isDigit ≠ [] ∧ r = j.dropWhile Char.isDigit ∧
      c = .Integer (cond neg (-(digitsVal (j.takeWhile Char.isDigit) : Int))
        (digitsVal (j.takeWhile Char.isDigit) : Int)) ∧
      ¬((cond neg (-(digitsVal (j.takeWhile Char.isDigit) : Int))
          (digitsVal (j.takeWhile Char.isDigit) : Int)) < -(2 ^ 63) ∨
        (2 ^ 63 - 1 : Int) < (cond neg (-(digitsVal (j.takeWhile Char.isDigit) : Int))
          (digitsVal (j.takeWhile Char.isDigit) : Int))) := by
  simp only [parse_integer_digits] at h
  split at h
  · exact PR.noConfusion h
  · rename_i htw
    split at h
    · exact PR.noConfusion h
    · rename_i hr
      obtain ⟨h1, h2⟩ := PR.ok.inj h
      exact ⟨htw, h1.symm, h2.symm, hr⟩

theorem parse_integer_digits_local (neg : Bool) (j r ext : Input) (c : LogCell)
    (tc : Char) (h : parse_integer_digits neg j = .ok r c)
    (hh : (r ++ ext).head? = some tc) (ht : tc.isDigit = false) :
    parse_integer_digits neg (j ++ ext) = .ok (r ++ ext) c := by
  obtain ⟨htw, hr, hc, hrange⟩ := parse_integer_digits_inv neg j r c h
  obtain ⟨t2, hre⟩ := head?_some_shape _ _ hh
  have hsplit : j = j.takeWhile Char.isDigit ++ r := by
    rw [hr, List.takeWhile_append_dropWhile]
  have hblocked := takeWhile_append_blocked Char.isDigit (j.takeWhile Char.isDigit)
    (r ++ ext) (fun x hx => List.mem_takeWhile_imp hx)
    (fun x hx => by rw [hh] at hx; cases hx; exact ht)
  have hj : j ++ ext = j.takeWhile Char.isDigit ++ (r ++ ext) := by
    conv_lhs => rw [hsplit]
    rw [List.append_assoc]
  simp only [parse_integer_digits, hj, hblocked.1, hblocked.2, if_neg htw,
    if_neg hrange]
  rw [hc]

theorem parse_integer_cons_ne (c0 : Char) (l : Input) (hc : c0 ≠ '-') :
    parse_integer (c0 :: l) = parse_integer_digits false (c0 :: l) := by
  unfold parse_integer
  split
  · rename_i j heq
    exact absurd (by injection heq with h1 _; exact h1.symm) hc.symm
  · rfl

theorem parse_float_cons_ne (c0 : Char) (l : Input) (hc : c0 ≠ '-') :
    parse_float (c0 :: l) = parse_float_digits false (c0 :: l) := by
  unfold parse_float
  split
  · rename_i j heq
    exact absurd (by injection heq with h1 _; exact h1.symm) hc.symm
  · rfl

theorem parse_integer_local (i r ext : Input) (c : LogCell) (tc : Char)
    (h : parse_integer i = .ok r c) (hh : (r ++ ext).head? = some tc)
    (ht : tc.isDigit = false) : parse_integer (i ++ ext) = .ok (r ++ ext) c := by
  cases i with
  | nil => exact PR.noConfusion h
  | cons c0 l =>
    by_cases hc0 : c0 = '-'
    · subst hc0
      have h' : parse_integer_digits true l = .ok r c := h
      exact parse_integer_digits_local true l r ext c tc h' hh ht
    · rw [List.cons_append, parse_integer_cons_ne c0 _ hc0]
      rw [parse_integer_cons_ne c0 l hc0] at h
      exact parse_integer_digits_local false (c0 :: l) r ext c tc h hh ht

theorem parse_float_digits_inv (neg : Bool) (j r : Input) (c : LogCell)
    (h : parse_float_digits neg j = .ok r c) :
    ∃ j2, j.takeWhile Char.isDigit ≠ [] ∧ j.dropWhile Char.isDigit = '.' :: j2 ∧
      j2.takeWhile Char.isDigit ≠ [] ∧ r = j2.dropWhile Char.isDigit ∧
      c = .Float (cond neg
        (-((digitsVal (j.takeWhile Char.isDigit) : ℚ) +
          (digitsVal (j2.takeWhile Char.isDigit) : ℚ) /
            ((10 : ℚ) ^ (j2.takeWhile Char.isDigit).length)))
        ((digitsVal (j.takeWhile Char.isDigit) : ℚ) +
          (digitsVal (j2.takeWhile Char.isDigit) : ℚ) /
            ((10 : ℚ) ^ (j2.takeWhile Char.isDigit).length))) := by
  simp only [parse_float_digits] at h
  split at h
  · exact PR.noConfusion h
  · rename_i htw
    split at h
    · rename_i j2 hdw
      split at h
      · exact PR.noConfusion h
      · rename_i htw2
        obtain ⟨h1, h2⟩ := PR.ok.inj h
        exact ⟨j2, htw, hdw, htw2, h1.symm, h2.symm⟩
    · exact PR.noConfusion h

theorem parse_float_digits_local (neg : Bool) (j r ext : Input) (c : LogCell)
    (tc : Char) (h : parse_float_digits neg j = .ok r c)
    (hh : (r ++ ext).head? = some tc) (ht : tc.isDigit = false) :
    parse_float_digits neg (j ++ ext) = .ok (r ++ ext) c := by
  obtain ⟨j2, htw, hdw, htw2, hr, hc⟩ := parse_float_digits_inv neg j r c h
  have hsplit : j = j.takeWhile Char.isDigit ++ ('.' :: j2) := by
    rw [← hdw, List.takeWhile_append_dropWhile]
  have hsplit2 : j2 = j2.takeWhile Char.isDigit ++ r := by
    rw [hr, List.takeWhile_append_dropWhile]
  have hb1 := takeWhile_append_blocked Char.isDigit (j.takeWhile Char.isDigit)
    ('.' :: (j2 ++ ext)) (fun x hx => List.mem_takeWhile_imp hx)
    (fun x hx => by
      simp only [List.head?_cons, Option.some.injEq] at hx
      subst hx
      decide)
  have hj : j ++ ext = j.takeWhile Char.isDigit ++ ('.' :: (j2 ++ ext)) := by
    conv_lhs => rw [hsplit]
    simp [List.append_assoc]
  have hb2 := takeWhile_append_blocked Char.isDigit (j2.takeWhile Char.isDigit)
    (r ++ ext) (fun x hx => List.mem_takeWhile_imp hx)
    (fun x hx => by rw [hh] at hx; cases hx; exact ht)
  have hj2 : j2 ++ ext = j2.takeWhile Char.isDigit ++ (r ++ ext) := by
    conv_lhs => rw [hsplit2]
    rw [List.append_assoc]
  have hq2 : j2 ++ ext = j2.takeWhile Char.isDigit ++ (r ++ ext) := hj2
  simp only [parse_float_digits, hj, hb1.1, hb1.2, if_neg htw]
  simp only [hq2, hb2.1, hb2.2, if_neg htw2]
  rw [hc]

theorem parse_float_local (i r ext : Input) (c : LogCell) (tc : Char)
    (h : parse_float i = .ok r c) (hh : (r ++ ext).head? = some tc)
    (ht : tc.isDigit = false) : parse_float (i ++ ext) = .ok (r ++ ext) c := by
  cases i with
  | nil => exact PR.noConfusion h
  | cons c0 l =>
    by_cases hc0 : c0 = '-'
    · subst hc0
      have h' : parse_float_digits true l = .ok r c := h
      exact parse_float_digits_local true l r ext c tc h' hh ht
    · rw [List.cons_append, parse_float_cons_ne c0 _ hc0]
      rw [parse_float_cons_ne c0 l hc0] at h
      exact parse_float_digits_local false (c0 :: l) r ext c tc h hh ht

theorem parse_multi_power_inv (i r : Input) (c : LogCell)
    (h : parse_multi_power i = .ok r c) :
    ∃ j2 a b, i.takeWhile Char.isDigit ≠ [] ∧
      parseU63 (i.takeWhile Char.isDigit) = some a ∧
      i.dropWhile Char.isDigit = '|' :: j2 ∧
      j2.takeWhile Char.isDigit ≠ [] ∧
      parseU63 (j2.takeWhile Char.isDigit) = some b ∧
      r = j2.dropWhile Char.isDigit ∧ c = .MultiPowerCell (a, b) := by
  simp only [parse_multi_power] at h
  split at h
  · exact PR.noConfusion h
  · rename_i htw
    split at h
    · exact PR.noConfusion h
    · rename_i a hu1
      split at h
      · rename_i j2 hdw
        split at h
        · exact PR.noConfusion h
        · rename_i htw2
          split at h
          · exact PR.noConfusion h
          · rename_i b hu2
            obtain ⟨h1, h2⟩ := PR.ok.inj h
            exact ⟨j2, a, b, htw, hu1, hdw, htw2, hu2, h1.symm, h2.symm⟩
      · exact PR.noConfusion h

theorem parse_multi_power_local (i r ext : Input) (c : LogCell) (tc : Char)
    (h : parse_multi_power i = .ok r c) (hh : (r ++ ext).head? = some tc)
    (ht : tc.isDigit = false) :
    parse_multi_power (i ++ ext) = .ok (r ++ ext) c := by
  obtain ⟨j2, a, b, htw, hu1, hdw, htw2, hu2, hr, hc⟩ :=
    parse_multi_power_inv i r c h
  have hsplit : i = i.takeWhile Char.isDigit ++ ('|' :: j2) := by
    rw [← hdw, List.takeWhile_append_dropWhile]
  have hsplit2 : j2 = j2.takeWhile Char.isDigit ++ r := by
    rw [hr, List.takeWhile_append_dropWhile]
  have hb1 := takeWhile_append_blocked Char.isDigit (i.takeWhile Char.isDigit)
    ('|' :: (j2 ++ ext)) (fun x hx => List.mem_takeWhile_imp hx)
    (fun x hx => by
      simp only [List.head?_cons, Option.some.injEq] at hx
      subst hx
      decide)
  have hj : i ++ ext = i.takeWhile Char.isDigit ++ ('|' :: (j2 ++ ext)) := by
    conv_lhs => rw [hsplit]
    simp [List.append_assoc]
  have hb2 := takeWhile_append_blocked Char.isDigit (j2.takeWhile Char.isDigit)
    (r ++ ext) (fun x hx => List.mem_takeWhile_imp hx)
    (fun x hx => by rw [hh] at hx; cases hx; exact ht)
  have hj2 : j2 ++ ext = j2.takeWhile Char.isDigit ++ (r ++ ext) := by
    conv_lhs => rw [hsplit2]
    rw [List.append_assoc]
  simp only [parse_multi_power, hj, hb1.1, hb1.2, if_neg htw, hu1]
  simp only [hj2, hb2.1, hb2.2, if_neg htw2, hu2]
  rw [hc]

theorem parse_multi_power_err_head (i : Input) (h0 : Char) (t' : Input)
    (hdw : i.dropWhile Char.isDigit = h0 :: t') (hb : h0 ≠ '|') :
    parse_multi_power i = .err := by
  simp only [parse_multi_power, hdw]
  split
  · rfl
  · split
    · rfl
    · split
      · rename_i j2 heq
        have h1 := congrArg List.head? heq
        simp only [List.head?_cons, Option.some.injEq] at h1
        exact absurd h1 hb
      · rfl

theorem parse_float_digits_err_head (neg : Bool) (j : Input) (h0 : Char)
    (t' : Input) (hdw : j.dropWhile Char.isDigit = h0 :: t') (hb : h0 ≠ '.') :
    parse_float_digits neg j = .err := by
  simp only [parse_float_digits, hdw]
  split
  · rfl
  · split
    · rename_i j2 heq
      have h1 := congrArg List.head? heq
      simp only [List.head?_cons, Option.some.injEq] at h1
      exact absurd h1 hb
    · rfl

theorem parse_number_local (i r ext : Input) (c : LogCell) (tc : Char)
    (h : parse_number i = .ok r c) (hh : (r ++ ext).head? = some tc)
    (ht : tc = ',' ∨ tc = ']' ∨ tc = ')') :
    parse_number (i ++ ext) = .ok (r ++ ext) c := by
  have htd : tc.isDigit = false := by rcases ht with rfl | rfl | rfl <;> decide
  have htb : tc ≠ '|' := by rcases ht with rfl | rfl | rfl <;> decide
  have htdot : tc ≠ '.' := by rcases ht with rfl | rfl | rfl <;> decide
  obtain ⟨t2, hre⟩ := head?_some_shape _ _ hh
  unfold parse_number at h ⊢
  cases hm : parse_multi_power i with
  | ok rm cm =>
    simp only [hm] at h
    obtain ⟨hr, hc⟩ := PR.ok.inj h
    subst hr hc
    simp only [parse_multi_power_local i _ ext _ tc hm hh htd]
  | panic q => simp only [hm] at h; exact PR.noConfusion h
  | more => simp only [hm] at h; exact PR.noConfusion h
  | err =>
    simp only [hm] at h
    cases hf : parse_float i with
    | ok rf cf =>
      simp only [hf] at h
      obtain ⟨hr, hc⟩ := PR.ok.inj h
      subst hr hc
      have hfl' := parse_float_local i _ ext _ tc hf hh htd
      have hmerr : parse_multi_power (i ++ ext) = .err := by
        cases i with
        | nil => exact PR.noConfusion hf
        | cons c0 l =>
          by_cases hc0 : c0 = '-'
          · subst hc0
            exact parse_multi_power_dash (l ++ ext)
          · rw [parse_float_cons_ne c0 l hc0] at hf
            obtain ⟨j2, htw, hdw, -, -, -⟩ := parse_float_digits_inv _ _ _ _ hf
            have hsplit : (c0 :: l : Input) =
                (c0 :: l : Input).takeWhile Char.isDigit ++ ('.' :: j2) := by
              rw [← hdw, List.takeWhile_append_dropWhile]
            have hb1 := takeWhile_append_blocked Char.isDigit
              ((c0 :: l : Input).takeWhile Char.isDigit) ('.' :: (j2 ++ ext))
              (fun x hx => List.mem_takeWhile_imp hx)
              (fun x hx => by
                simp only [List.head?_cons, Option.some.injEq] at hx
                subst hx
                decide)
            have hj : (c0 :: l : Input) ++ ext =
                (c0 :: l : Input).takeWhile Char.isDigit ++ ('.' :: (j2 ++ ext)) := by
              conv_lhs => rw [hsplit]
              simp [List.append_assoc]
            exact parse_multi_power_err_head _ '.' _
              (by rw [hj, hb1.2]) (by decide)
      simp only [hmerr, hfl']
    | err =>
      simp only [hf] at h
      have hint' := parse_integer_local i _ ext _ tc h hh htd
      cases i with
      | nil => exact PR.noConfusion h
      | cons c0 l =>
        by_cases hc0 : c0 = '-'
        · subst hc0
          have h' : parse_integer_digits true l = .ok r c := h
          obtain ⟨htw, hr, -, -⟩ := parse_integer_digits_inv _ _ _ _ h'
          have hsplit : l = l.takeWhile Char.isDigit ++ r := by
            rw [hr, List.takeWhile_append_dropWhile]
          have hb1 := takeWhile_append_blocked Char.isDigit
            (l.takeWhile Char.isDigit) (r ++ ext)
            (fun x hx => List.mem_takeWhile_imp hx)
            (fun x hx => by rw [hh] at hx; cases hx; exact htd)
          have hj : l ++ ext = l.takeWhile Char.isDigit ++ (r ++ ext) := by
            conv_lhs => rw [hsplit]
            rw [List.append_assoc]
          have hmerr : parse_multi_power (('-' :: l : Input) ++ ext) = .err :=
            parse_multi_power_dash (l ++ ext)
          have hferr : parse_float (('-' :: l : Input) ++ ext) = .err := by
            show parse_float_digits true (l ++ ext) = .err
            exact parse_float_digits_err_head true (l ++ ext) tc t2
              (by rw [hj, hb1.2, hre]) htdot
          simp only [hmerr, hferr]
          exact hint'
        · rw [parse_integer_cons_ne c0 l hc0] at h
          obtain ⟨htw, hr, -, -⟩ := parse_integer_digits_inv _ _ _ _ h
          have hsplit : (c0 :: l : Input) =
              (c0 :: l : Input).takeWhile Char.isDigit ++ r := by
            rw [hr, List.takeWhile_append_dropWhile]
          have hb1 := takeWhile_append_blocked Char.isDigit
            ((c0 :: l : Input).takeWhile Char.isDigit) (r ++ ext)
            (fun x hx => List.mem_takeWhile_imp hx)
            (fun x hx => by rw [hh] at hx; cases hx; exact htd)
          have hj : (c0 :: l : Input) ++ ext =
              (c0 :: l : Input).takeWhile Char.isDigit ++ (r ++ ext) := by
            conv_lhs => rw [hsplit]
            rw [List.append_assoc]
          have hdwa : ((c0 :: l : Input) ++ ext).dropWhile Char.isDigit =
              tc :: t2 := by
            rw [hj, hb1.2, hre]
          have hmerr := parse_multi_power_err_head _ tc t2 hdwa htb
          have hferr : parse_float ((c0 :: l : Input) ++ ext) = .err := by
            rw [List.cons_append, parse_float_cons_ne c0 _ hc0]
            exact parse_float_digits_err_head false _ tc t2
              (by rw [← List.cons_append]; exact hdwa) htdot
          simp only [hmerr, hferr]
          exact hint'
    | panic q => simp only [hf] at h; exact PR.noConfusion h
    | more => simp only [hf] at h; exact PR.noConfusion h

theorem parse_string_never_bar (l r : Input) (c : LogCell) :
    parse_string ('|' :: l) ≠ .ok r c := by
  intro h
  unfold parse_string at h
  cases hp : ptag ['|', 'T'] ('|' :: l) with
  | ok j v =>
    simp only [hp] at h
    cases htw : takeWhile1 is_valid_emote j with
    | ok j2 v2 =>
      simp only [htw] at h
      cases hb : ptag ['!'] j2 with
      | ok j3 v3 =>
        obtain ⟨-, hj2⟩ := ptag_ok _ _ _ _ hb
        obtain ⟨-, -, -, hblock⟩ := takeWhile1_ok _ _ _ _ htw
        have hbad : is_valid_emote '!' = false :=
          hblock '!' (by rw [hj2]; rfl)
        exact absurd hbad (by decide)
      | err => simp only [hb] at h; exact PR.noConfusion h
      | panic q => simp only [hb] at h; exact PR.noConfusion h
      | more => simp only [hb] at h; exact PR.noConfusion h
    | err => simp only [htw] at h; exact PR.noConfusion h
    | panic q => simp only [htw] at h; exact PR.noConfusion h
    | more => simp only [htw] at h; exact PR.noConfusion h
  | err => simp only [hp] at h; exact PR.noConfusion h
  | panic q => simp only [hp] at h; exact PR.noConfusion h
  | more => simp only [hp] at h; exact PR.noConfusion h

theorem parse_string_other (c0 : Char) (l : Input) (h1 : c0 ≠ '|')
    (h2 : c0 ≠ '"') (j v : Input)
    (htw : takeWhile1 is_valid_unwrapped (c0 :: l) = .ok j v) :
    parse_string (c0 :: l) = .ok j (.Str v) := by
  unfold parse_string
  split
  · rename_i heq
    exact absurd heq (by simp)
  · rename_i tail heq
    injection heq with hx hx2
    exact absurd hx h1
  · rename_i tail heq
    injection heq with hx hx2
    exact absurd hx h2
  · simp only [htw]

theorem parse_string_other_err (c0 : Char) (l : Input) (h1 : c0 ≠ '|')
    (h2 : c0 ≠ '"')
    (htw : takeWhile1 is_valid_unwrapped (c0 :: l) = .err) :
    parse_string (c0 :: l) = .err := by
  unfold parse_string
  split
  · rename_i heq
    exact absurd heq (by simp)
  · rename_i tail heq
    injection heq with hx hx2
    exact absurd hx h1
  · rename_i tail heq
    injection heq with hx hx2
    exact absurd hx h2
  · simp only [htw]

theorem parse_string_local (i r ext : Input) (c : LogCell) (tc : Char)
    (h : parse_string i = .ok r c) (hh : (r ++ ext).head? = some tc)
    (ht : tc = ',' ∨ tc = ']' ∨ tc = ')') :
    parse_string (i ++ ext) = .ok (r ++ ext) c := by
  have htu : is_valid_unwrapped tc = false := by
    rcases ht with rfl | rfl | rfl <;> decide
  cases i with
  | nil => exact PR.noConfusion h
  | cons c0 l =>
    by_cases hbar : c0 = '|'
    · subst hbar
      exact absurd h (parse_string_never_bar l r c)
    · by_cases hquo : c0 = '"'
      · subst hquo
        unfold parse_string at h
        cases htw : takeWhile1 is_valid_wrapped l with
        | ok j2 v2 =>
          simp only [htw] at h
          split at h
          · rename_i j3
            obtain ⟨hr, hc⟩ := PR.ok.inj h
            subst hr hc
            have htw' := takeWhile1_local is_valid_wrapped l ('"' :: j3) v2
              ext '"' htw (by rfl) (by decide)
            show parse_string ('"' :: (l ++ ext)) = .ok (j3 ++ ext) (.Str v2)
            unfold parse_string
            simp only [htw', List.cons_append]
          · exact PR.noConfusion h
        | err => simp only [htw] at h; exact PR.noConfusion h
        | panic q =>
          unfold takeWhile1 at htw
          split at htw <;> exact PR.noConfusion htw
        | more =>
          unfold takeWhile1 at htw
          split at htw <;> exact PR.noConfusion htw
      · cases htw : takeWhile1 is_valid_unwrapped (c0 :: l) with
        | ok j v =>
          rw [parse_string_other c0 l hbar hquo j v htw] at h
          obtain ⟨hr, hc⟩ := PR.ok.inj h
          subst hr hc
          have htw' := takeWhile1_local is_valid_unwrapped (c0 :: l) j v ext
            tc htw hh htu
          rw [List.cons_append]
          exact parse_string_other c0 (l ++ ext) hbar hquo (j ++ ext) v
            (by rw [← List.cons_append]; exact htw')
        | err =>
          rw [parse_string_other_err c0 l hbar hquo htw] at h
          exact PR.noConfusion h
        | panic q =>
          unfold takeWhile1 at htw
          split at htw <;> exact PR.noConfusion htw
        | more =>
          unfold takeWhile1 at htw
          split at htw <;> exact PR.noConfusion htw

theorem parse_hex_run (l r t : Input)
    (h : takeWhile1 Char.isAlphanum l = .ok r t) :
    parse_hex ('0' :: 'x' :: l) = .ok r (.Str t) := by
  unfold parse_hex
  have hp : ptag ['0', 'x'] ('0' :: 'x' :: l) = .ok l ['0', 'x'] := rfl
  simp only [hp, h]

theorem parse_hex_ok_inv (l r : Input) (c : LogCell)
    (h : parse_hex ('0' :: 'x' :: l) = .ok r c) :
    ∃ v, takeWhile1 Char.isAlphanum l = .ok r v ∧ c = .Str v := by
  unfold parse_hex at h
  have hp : ptag ['0', 'x'] ('0' :: 'x' :: l) = .ok l ['0', 'x'] := rfl
  simp only [hp] at h
  cases htw : takeWhile1 Char.isAlphanum l with
  | ok j2 v2 =>
    simp only [htw] at h
    obtain ⟨hr, hc⟩ := PR.ok.inj h
    subst hr
    exact ⟨v2, rfl, hc.symm⟩
  | err => simp only [htw] at h; exact PR.noConfusion h
  | panic q => simp only [htw] at h; exact PR.noConfusion h
  | more => simp only [htw] at h; exact PR.noConfusion h

theorem parse_hex_local (l r ext : Input) (c : LogCell) (tc : Char)
    (h : parse_hex ('0' :: 'x' :: l) = .ok r c)
    (hh : (r ++ ext).head? = some tc) (ht : tc = ',' ∨ tc = ']' ∨ tc = ')') :
    parse_hex ('0' :: 'x' :: (l ++ ext)) = .ok (r ++ ext) c := by
  have hta : tc.isAlphanum = false := by
    rcases ht with rfl | rfl | rfl <;> decide
  obtain ⟨v, htw, hc⟩ := parse_hex_ok_inv l r c h
  subst hc
  exact parse_hex_run _ _ _ (takeWhile1_local _ _ _ _ ext tc htw hh hta)

theorem sepLoop_local (p : Input → PR LogCell) (ext : Input)
    (hploc : ∀ i r c tc, p i = .ok r c → (r ++ ext).head? = some tc →
      (tc = ',' ∨ tc = ']' ∨ tc = ')') → p (i ++ ext) = .ok (r ++ ext) c) :
    ∀ (f : Nat) (j : Input) (acc : List LogCell) (rl : Input)
      (cs : List LogCell) (tc : Char),
      sepLoop p f j acc = .ok rl cs → (rl ++ ext).head? = some tc →
      (tc = ']' ∨ tc = ')') →
      sepLoop p f (j ++ ext) acc = .ok (rl ++ ext) cs := by
  intro f
  induction f with
  | zero => intro j acc rl cs tc h _ _; exact PR.noConfusion h
  | succ g ih =>
    intro j acc rl cs tc h hh htc
    unfold sepLoop at h
    split at h
    · rename_i j1
      cases hpj : p j1 with
      | ok j2 c =>
        simp only [hpj] at h
        have hstep : ∃ tc2, ((j2 ++ ext).head? = some tc2) ∧
            (tc2 = ',' ∨ tc2 = ']' ∨ tc2 = ')') := by
          cases j2 with
          | nil =>
            cases g with
            | zero => exact PR.noConfusion h
            | succ g2 =>
              have hz : sepLoop p (g2 + 1) [] (acc ++ [c]) =
                  .ok [] (acc ++ [c]) := rfl
              rw [hz] at h
              obtain ⟨hrl, -⟩ := PR.ok.inj h
              subst hrl
              exact ⟨tc, hh, Or.inr htc⟩
          | cons x j2t =>
            by_cases hx : x = ','
            · subst hx
              exact ⟨',', rfl, Or.inl rfl⟩
            · cases g with
              | zero => exact PR.noConfusion h
              | succ g2 =>
                have hloop : sepLoop p (g2 + 1) (x :: j2t) (acc ++ [c]) =
                    .ok (x :: j2t) (acc ++ [c]) := by
                  unfold sepLoop
                  split
                  · rename_i j1x heqx
                    injection heqx with ha _
                    exact absurd ha hx
                  · rfl
                rw [hloop] at h
                obtain ⟨hrl, -⟩ := PR.ok.inj h
                subst hrl
                exact ⟨tc, hh, by
                  rcases htc with rfl | rfl
                  · exact Or.inr (Or.inl rfl)
                  · exact Or.inr (Or.inr rfl)⟩
        obtain ⟨tc2, hh2, htc2⟩ := hstep
        have hp' := hploc _ _ _ _ hpj hh2 htc2
        show sepLoop p (g + 1) (',' :: (j1 ++ ext)) acc = .ok (rl ++ ext) cs
        unfold sepLoop
        simp only [hp']
        exact ih _ _ _ _ _ h hh htc
      | err =>
        simp only [hpj] at h
        obtain ⟨hrl, -⟩ := PR.ok.inj h
        subst hrl
        exfalso
        simp only [List.cons_append, List.head?_cons, Option.some.injEq] at hh
        rcases htc with rfl | rfl <;> exact absurd hh (by decide)
      | panic q => simp only [hpj] at h; exact PR.noConfusion h
      | more => simp only [hpj] at h; exact PR.noConfusion h
    · rename_i hnc
      obtain ⟨hrl, hcs⟩ := PR.ok.inj h
      subst hrl hcs
      unfold sepLoop
      split
      · rename_i j1x heqx
        exfalso
        cases j with
        | nil =>
          simp only [List.nil_append] at heqx hh
          rw [heqx] at hh
          simp only [List.head?_cons, Option.some.injEq] at hh
          rcases htc with rfl | rfl <;> exact absurd hh (by decide)
        | cons a jt =>
          simp only [List.cons_append] at heqx
          injection heqx with ha _
          exact hnc jt (by rw [ha])
      · rfl

theorem parse_array_local (p : Input → PR LogCell) (ext : Input)
    (hploc : ∀ i r c tc, p i = .ok r c → (r ++ ext).head? = some tc →
      (tc = ',' ∨ tc = ']' ∨ tc = ')') → p (i ++ ext) = .ok (r ++ ext) c)
    (hperr : ∀ ch t, (ch = ']' ∨ ch = ')') → p (ch :: t) = .err)
    (f : Nat) (i : Input) (op cl : Char) (hcl : cl = ']' ∨ cl = ')')
    (r : Input) (c : LogCell) (tc : Char)
    (h : parse_array p f i op cl = .ok r c) (hh : (r ++ ext).head? = some tc)
    (htc : tc = ',' ∨ tc = ']' ∨ tc = ')') :
    parse_array p f (i ++ ext) op cl = .ok (r ++ ext) c := by
  unfold parse_array at h
  split at h
  · exact PR.noConfusion h
  · rename_i ch tail
    split at h
    · rename_i hop
      cases hpt : p tail with
      | err =>
        simp only [hpt] at h
        split at h
        · rename_i d j2
          split at h
          · rename_i hd
            obtain ⟨hr, hc⟩ := PR.ok.inj h
            subst hr hc hd
            show parse_array p f (ch :: ((d :: j2) ++ ext)) op d =
              .ok (j2 ++ ext) (.Array [])
            unfold parse_array
            have hperr2 : p (d :: (j2 ++ ext)) = .err := hperr d (j2 ++ ext) hcl
            simp only [List.cons_append, hop, eq_self_iff_true, if_true, hperr2]
          · exact PR.noConfusion h
        · exact PR.noConfusion h
      | ok j1 c1 =>
        simp only [hpt] at h
        cases hl : sepLoop p f j1 [c1] with
        | ok jl cs =>
          simp only [hl] at h
          split at h
          · rename_i d j2
            split at h
            · rename_i hd
              obtain ⟨hr, hc⟩ := PR.ok.inj h
              subst hr hc hd
              have hstep : ∃ tc2, ((j1 ++ ext).head? = some tc2) ∧
                  (tc2 = ',' ∨ tc2 = ']' ∨ tc2 = ')') := by
                cases j1 with
                | nil =>
                  cases f with
                  | zero => exact PR.noConfusion hl
                  | succ f2 =>
                    have hz : sepLoop p (f2 + 1) [] [c1] = .ok [] [c1] := rfl
                    rw [hz] at hl
                    obtain ⟨hjl, -⟩ := PR.ok.inj hl
                    exact absurd hjl (by simp)
                | cons x j1t =>
                  by_cases hx : x = ','
                  · subst hx
                    exact ⟨',', rfl, Or.inl rfl⟩
                  · cases f with
                    | zero => exact PR.noConfusion hl
                    | succ f2 =>
                      have hloop : sepLoop p (f2 + 1) (x :: j1t) [c1] =
                          .ok (x :: j1t) [c1] := by
                        unfold sepLoop
                        split
                        · rename_i j1x heqx
                          injection heqx with ha _
                          exact absurd ha hx
                        · rfl
                      rw [hloop] at hl
                      obtain ⟨hjl, -⟩ := PR.ok.inj hl
                      have hx2 : x = d := by
                        have hhd := congrArg List.head? hjl
                        simpa using hhd
                      subst hx2
                      refine ⟨x, rfl, ?_⟩
                      rcases hcl with rfl | rfl
                      · exact Or.inr (Or.inl rfl)
                      · exact Or.inr (Or.inr rfl)
              obtain ⟨tc2, hh2, htc2⟩ := hstep
              have hp' := hploc _ _ _ _ hpt hh2 htc2
              have hll := sepLoop_local p ext hploc f j1 [c1] (d :: j2) cs d
                hl (by rw [List.cons_append]; rfl) hcl
              show parse_array p f (ch :: (tail ++ ext)) op d =
                .ok (j2 ++ ext) (.Array cs)
              unfold parse_array
              simp only [List.cons_append, hop, eq_self_iff_true, if_true, hp', hll]
            · exact PR.noConfusion h
          · exact PR.noConfusion h
        | err => simp only [hl] at h; exact PR.noConfusion h
        | panic q => simp only [hl] at h; exact PR.noConfusion h
        | more => simp only [hl] at h; exact PR.noConfusion h
      | panic q => simp only [hpt] at h; exact PR.noConfusion h
      | more => simp only [hpt] at h; exact PR.noConfusion h
    · exact PR.noConfusion h

/-- Every `numStart` character is also a `singleNumStart` character. -/
theorem numStart_singleNumStart (c : Char) (h : numStart c = true) :
    singleNumStart c = true := by
  unfold numStart at h
  unfold singleNumStart
  simp only [Bool.or_eq_true, decide_eq_true_eq] at h ⊢
  tauto

/-- Locality of the whole cell grammar: appending further input after the
consumed span of a successful parse does not change the result, provided the
first unconsumed character is a structural stop character (`,`, `]`, `)`).
This is the compositionality property behind array elements: a cell literal
parses the same standalone and inside an array. -/
theorem parseCellF_local (ext : Input) :
    ∀ (f : Nat) (i r : Input) (c : LogCell) (tc : Char),
      parseCellF f i = .ok r c → (r ++ ext).head? = some tc →
      (tc = ',' ∨ tc = ']' ∨ tc = ')') →
      parseCellF f (i ++ ext) = .ok (r ++ ext) c := by
  cases ext with
  | nil =>
    intro f i r c tc h _ _
    simpa using h
  | cons e0 erest =>
    intro f
    induction f with
    | zero => intro i r c tc h _ _; exact PR.noConfusion h
    | succ f2 ih =>
      intro i r c tc h hh htc
      cases i with
      | nil => exact PR.noConfusion h
      | cons c0 itail =>
        cases itail with
        | nil =>
          by_cases h1 : c0 = '['
          · subst h1
            exfalso
            cases f2 with
            | zero => exact PR.noConfusion h
            | succ f3 => exact PR.noConfusion h
          · by_cases h2 : c0 = '('
            · subst h2
              exfalso
              cases f2 with
              | zero => exact PR.noConfusion h
              | succ f3 => exact PR.noConfusion h
            · by_cases h3 : singleNumStart c0 = true
              · have hc0 : c0 = '0' ∨ c0 = '1' ∨ c0 = '2' ∨ c0 = '3' ∨
                    c0 = '4' ∨ c0 = '5' ∨ c0 = '6' ∨ c0 = '7' ∨ c0 = '8' ∨
                    c0 = '-' := by
                  unfold singleNumStart at h3
                  simp only [Bool.or_eq_true, decide_eq_true_eq] at h3
                  tauto
                rcases hc0 with rfl | rfl | rfl | rfl | rfl | rfl | rfl | rfl | rfl | rfl
                · -- `"0"`: the appended input re-dispatches through the hex test
                  have h' : PR.ok ([] : Input) (LogCell.Integer 0) = PR.ok r c := h
                  obtain ⟨hr, hc⟩ := PR.ok.inj h'
                  subst hr hc
                  have hx : ¬ e0 = 'x' := by
                    have he0 : e0 = tc := by simpa using hh
                    rw [he0]
                    rcases htc with rfl | rfl | rfl <;> decide
                  have h0 : parse_number ['0'] = .ok [] (.Integer 0) := rfl
                  have hd2 : parseCellF (f2 + 1) ('0' :: e0 :: erest) =
                      (if e0 = 'x' then parse_hex ('0' :: e0 :: erest)
                       else parse_number ('0' :: e0 :: erest)) := rfl
                  show parseCellF (f2 + 1) ('0' :: e0 :: erest) =
                    .ok (([] : Input) ++ (e0 :: erest)) (.Integer 0)
                  rw [hd2, if_neg hx]
                  exact parse_number_local ['0'] [] (e0 :: erest) (.Integer 0)
                    tc h0 hh htc
                · have h' : parse_number ['1'] = .ok r c := h
                  exact parse_number_local ['1'] r (e0 :: erest) c tc h' hh htc
                · have h' : parse_number ['2'] = .ok r c := h
                  exact parse_number_local ['2'] r (e0 :: erest) c tc h' hh htc
                · have h' : parse_number ['3'] = .ok r c := h
                  exact parse_number_local ['3'] r (e0 :: erest) c tc h' hh htc
                · have h' : parse_number ['4'] = .ok r c := h
                  exact parse_number_local ['4'] r (e0 :: erest) c tc h' hh htc
                · have h' : parse_number ['5'] = .ok r c := h
                  exact parse_number_local ['5'] r (e0 :: erest) c tc h' hh htc
                · have h' : parse_number ['6'] = .ok r c := h
                  exact parse_number_local ['6'] r (e0 :: erest) c tc h' hh htc
                · have h' : parse_number ['7'] = .ok r c := h
                  exact parse_number_local ['7'] r (e0 :: erest) c tc h' hh htc
                · have h' : parse_number ['8'] = .ok r c := h
                  exact parse_number_local ['8'] r (e0 :: erest) c tc h' hh htc
                · -- bare `"-"` is a recoverable error, contradiction
                  exact PR.noConfusion h
              · have hd : parseCellF (f2 + 1) [c0] = parse_string [c0] := by
                  simp only [parseCellF]
                  rw [if_neg h1, if_neg h2, if_neg h3]
                rw [hd] at h
                have h0 : ¬ c0 = '0' := fun he => h3 (by rw [he]; rfl)
                have hns : ¬ numStart c0 = true :=
                  fun hq => h3 (numStart_singleNumStart c0 hq)
                have hd2 : parseCellF (f2 + 1) (c0 :: e0 :: erest) =
                    parse_string (c0 :: e0 :: erest) := by
                  simp only [parseCellF]
                  rw [if_neg h1, if_neg h2, if_neg h0, if_neg hns]
                show parseCellF (f2 + 1) (c0 :: e0 :: erest) =
                  .ok (r ++ (e0 :: erest)) c
                rw [hd2]
                exact parse_string_local [c0] r (e0 :: erest) c tc h hh htc
        | cons c1 irest =>
          by_cases h1 : c0 = '['
          · subst h1
            cases f2 with
            | zero => exact PR.noConfusion h
            | succ f3 =>
              exact parse_array_local (parseCellF (f3 + 1)) (e0 :: erest) ih
                (fun ch t hbr => parseCellF_bracket_err f3 ch t hbr)
                (f3 + 1) ('[' :: c1 :: irest) '[' ']' (Or.inl rfl) r c tc h hh htc
          · by_cases h2 : c0 = '('
            · subst h2
              cases f2 with
              | zero => exact PR.noConfusion h
              | succ f3 =>
                exact parse_array_local (parseCellF (f3 + 1)) (e0 :: erest) ih
                  (fun ch t hbr => parseCellF_bracket_err f3 ch t hbr)
                  (f3 + 1) ('(' :: c1 :: irest) '(' ')' (Or.inr rfl) r c tc h hh htc
            · by_cases h3 : c0 = '0'
              · subst h3
                by_cases hx : c1 = 'x'
                · subst hx
                  exact parse_hex_local irest r (e0 :: erest) c tc h hh htc
                · have hd : parseCellF (f2 + 1) ('0' :: c1 :: irest) =
                      (if c1 = 'x' then parse_hex ('0' :: c1 :: irest)
                       else parse_number ('0' :: c1 :: irest)) := rfl
                  rw [hd, if_neg hx] at h
                  have hd2 : parseCellF (f2 + 1) ('0' :: c1 :: (irest ++ (e0 :: erest))) =
                      (if c1 = 'x' then parse_hex ('0' :: c1 :: (irest ++ (e0 :: erest)))
                       else parse_number ('0' :: c1 :: (irest ++ (e0 :: erest)))) := rfl
                  show parseCellF (f2 + 1) ('0' :: c1 :: (irest ++ (e0 :: erest))) =
                    .ok (r ++ (e0 :: erest)) c
                  rw [hd2, if_neg hx]
                  exact parse_number_local ('0' :: c1 :: irest) r (e0 :: erest) c tc h hh htc
              · by_cases h4 : numStart c0 = true
                · have hd : parseCellF (f2 + 1) (c0 :: c1 :: irest) =
                      parse_number (c0 :: c1 :: irest) := by
                    simp only [parseCellF]
                    rw [if_neg h1, if_neg h2, if_neg h3, if_pos h4]
                  rw [hd] at h
                  have hd2 : parseCellF (f2 + 1) (c0 :: c1 :: (irest ++ (e0 :: erest))) =
                      parse_number (c0 :: c1 :: (irest ++ (e0 :: erest))) := by
                    simp only [parseCellF]
                    rw [if_neg h1, if_neg h2, if_neg h3, if_pos h4]
                  show parseCellF (f2 + 1) (c0 :: c1 :: (irest ++ (e0 :: erest))) =
                    .ok (r ++ (e0 :: erest)) c
                  rw [hd2]
                  exact parse_number_local (c0 :: c1 :: irest) r (e0 :: erest) c tc h hh htc
                · have hd : parseCellF (f2 + 1) (c0 :: c1 :: irest) =
                      parse_string (c0 :: c1 :: irest) := by
                    simp only [parseCellF]
                    rw [if_neg h1, if_neg h2, if_neg h3, if_neg h4]
                  rw [hd] at h
                  have hd2 : parseCellF (f2 + 1) (c0 :: c1 :: (irest ++ (e0 :: erest))) =
                      parse_string (c0 :: c1 :: (irest ++ (e0 :: erest))) := by
                    simp only [parseCellF]
                    rw [if_neg h1, if_neg h2, if_neg h3, if_neg h4]
                  show parseCellF (f2 + 1) (c0 :: c1 :: (irest ++ (e0 :: erest))) =
                    .ok (r ++ (e0 :: erest)) c
                  rw [hd2]
                  exact parse_string_local (c0 :: c1 :: irest) r (e0 :: erest) c tc h hh htc

/-- Entering the cell grammar on a `[`-led input of length at least two
dispatches to `parse_array` with the recursion fuel exposed. -/
theorem parse_log_cell_open_bracket (c1 : Char) (t : Input) :
    parse_log_cell ('[' :: c1 :: t) =
      parse_array (parseCellF ((c1 :: t).length + 1)) ((c1 :: t).length + 1)
        ('[' :: c1 :: t) '[' ']' := rfl

/-- Three successful element parses, each stopping exactly at its following
separator (or at the closing bracket), assemble into a successful
`parse_array` of the bracketed literal, given at least three units of loop
fuel. -/
theorem parse_array_three (p : Input → PR LogCell) (f : Nat) (hf : 3 ≤ f)
    (a b c : Input) (ca cb cc : LogCell)
    (hpa : p (a ++ (',' :: (b ++ (',' :: (c ++ ([']'] : Input)))))) =
      .ok (',' :: (b ++ (',' :: (c ++ ([']'] : Input))))) ca)
    (hpb : p (b ++ (',' :: (c ++ ([']'] : Input)))) =
      .ok (',' :: (c ++ ([']'] : Input))) cb)
    (hpc : p (c ++ ([']'] : Input)) = .ok ([']'] : Input) cc) :
    parse_array p f ('[' :: (a ++ (',' :: (b ++ (',' :: (c ++ ([']'] : Input))))))) '[' ']' =
      .ok [] (.Array [ca, cb, cc]) := by
  obtain ⟨f3, rfl⟩ : ∃ f3, f = f3 + 3 := ⟨f - 3, by omega⟩
  unfold parse_array
  simp only [eq_self_iff_true, if_true, hpa, hpb, hpc, sepLoop,
    List.cons_append, List.nil_append]
  rfl

/-- C6: round-trip shape of array literals.  For every well-formed array
literal `[a,b,c]` whose elements `a`, `b`, `c` are each valid cell literals
(each decodes standalone with nothing left over), `parse_log_cell` yields
`Array [ca, cb, cc]` where each element equals the cell produced by decoding
that element's literal standalone. -/
theorem claim_C6_array_roundtrip (a b c : Input) (ca cb cc : LogCell)
    (ha : parse_log_cell a = .ok [] ca)
    (hb : parse_log_cell b = .ok [] cb)
    (hc : parse_log_cell c = .ok [] cc) :
    parse_log_cell ('[' :: (a ++ (',' :: (b ++ (',' :: (c ++ ([']'] : Input))))))) =
      .ok [] (.Array [ca, cb, cc]) := by
  cases a with
  | nil => exact absurd ha (fun hx => PR.noConfusion hx)
  | cons a0 arest =>
    rw [List.cons_append, parse_log_cell_open_bracket]
    refine parse_array_three _ _ ?_ (a0 :: arest) b c ca cb cc ?_ ?_ ?_
    · simp only [List.length_cons, List.length_append, List.length_nil]
      omega
    · have ha' : parseCellF ((a0 :: arest).length + 1) (a0 :: arest) = .ok [] ca := ha
      have hpa0 := parseCellF_local (',' :: (b ++ (',' :: (c ++ ([']'] : Input)))))
        ((a0 :: arest).length + 1) (a0 :: arest) [] ca ',' ha' rfl (Or.inl rfl)
      exact parseCellF_mono_le _ _
        (by simp only [List.length_cons, List.length_append, List.length_nil]; omega)
        _ _ hpa0 (fun hx => PR.noConfusion hx)
    · have hb' : parseCellF (b.length + 1) b = .ok [] cb := hb
      have hpb0 := parseCellF_local (',' :: (c ++ ([']'] : Input)))
        (b.length + 1) b [] cb ',' hb' rfl (Or.inl rfl)
      exact parseCellF_mono_le _ _
        (by simp only [List.length_cons, List.length_append, List.length_nil]; omega)
        _ _ hpb0 (fun hx => PR.noConfusion hx)
    · have hc' : parseCellF (c.length + 1) c = .ok [] cc := hc
      have hpc0 := parseCellF_local ([']'] : Input)
        (c.length + 1) c [] cc ']' hc' rfl (Or.inr (Or.inl rfl))
      exact parseCellF_mono_le _ _
        (by simp only [List.length_cons, List.length_append, List.length_nil]; omega)
        _ _ hpc0 (fun hx => PR.noConfusion hx)

/-- C6 witness: the array literal `[1,22,0x3A]` decodes to the array of the
three standalone decodes (an integer, an integer, and the hex-arm string). -/
theorem claim_C6_witness :
    parse_log_cell ('[' :: ("1".data ++ (',' :: ("22".data ++
        (',' :: ("0x3A".data ++ ([']'] : Input))))))) =
      .ok [] (.Array [.Integer 1, .Integer 22, .Str "3A".data]) :=
  claim_C6_array_roundtrip "1".data "22".data "0x3A".data
    (.Integer 1) (.Integer 22) (.Str "3A".data) rfl rfl rfl
